import Mathlib

/-!
Verification of the clause-splicing utilities (`utils.py`) of the contract-editing
repository.  Paragraph text is modelled as `List Char`; a python-docx `Run` is a
record of its text and character attributes (tri-state attributes such as
`run.bold` are `Option Bool`, with Python truthiness `= some true`); a `Paragraph`
is a record of its runs and paragraph-level properties.  `document.paragraphs`
is a `List Para`; operations that mutate the document in place are embedded as
functions returning the new paragraph list, and a Python `raise` is `Except.error`.
Regular expressions are embedded by hand: `^(\d+|XXX)\.\s+` is `pyMatch`
(`re.match` anchors at position 0, so the span always starts at 0 and only the
end offset is returned), `re.split('([.!?])\s+', ...)` is `splitParts`.
-/

set_option autoImplicit false

/-! ### Python string primitives -/

/-- Python whitespace (`str.strip`, `\s`), ASCII part. -/
def isPySpace (c : Char) : Bool :=
  c = ' ' || c = '\t' || c = '\n' || c = '\r' || c = '\x0b' || c = '\x0c'

def pyLStrip (t : List Char) : List Char := t.dropWhile isPySpace

def pyRStrip (t : List Char) : List Char := (t.reverse.dropWhile isPySpace).reverse

/-- Python `str.strip()`. -/
def pyStrip (t : List Char) : List Char := pyRStrip (pyLStrip t)

/-- Python `str.lower()` (ASCII). -/
def lowerL (t : List Char) : List Char := t.map Char.toLower

/-- Python `str.startswith(pre)`. -/
def startsWithL : List Char → List Char → Bool
  | [], _ => true
  | _ :: _, [] => false
  | p :: ps, c :: cs => p == c && startsWithL ps cs

/-- Python `str.endswith(suf)`. -/
def endsWithL (suf t : List Char) : Bool := startsWithL suf.reverse t.reverse

/-- Python `sub in s` for a single character. -/
def containsC (c : Char) (t : List Char) : Bool := t.any (· == c)

/-- Python `str.find(pat)`: index of the first occurrence, `none` for -1. -/
def findSubstr (pat : List Char) : List Char → Option Nat
  | [] => if pat.isEmpty then some 0 else none
  | c :: cs =>
    if startsWithL pat (c :: cs) then some 0
    else (findSubstr pat cs).map (· + 1)

/-- Python `str.rfind(ch)`: index of the last occurrence, `none` for -1. -/
def rfindChar (c : Char) : List Char → Option Nat
  | [] => none
  | x :: xs =>
    match rfindChar c xs with
    | some i => some (i + 1)
    | none => if x == c then some 0 else none

/-- Number of words of `len(text.split())` (maximal runs of non-whitespace). -/
def wordCountGo : Bool → List Char → Nat
  | _, [] => 0
  | inWord, c :: cs =>
    if isPySpace c then wordCountGo false cs
    else (if inWord then 0 else 1) + wordCountGo true cs

def wordCount (t : List Char) : Nat := wordCountGo false t

/-- Length of the maximal digit prefix (regex `\d+`, greedy). -/
def digitPrefixLen : List Char → Nat
  | [] => 0
  | c :: cs => if c.isDigit then digitPrefixLen cs + 1 else 0

/-- Length of the maximal whitespace prefix (regex `\s+`, greedy). -/
def wsPrefixLen : List Char → Nat
  | [] => 0
  | c :: cs => if isPySpace c then wsPrefixLen cs + 1 else 0

/-- Decimal digits of `n`, via fuel so that the definition reduces; Python `str(n)`. -/
def natToCharsAux : Nat → Nat → List Char
  | 0, _ => []
  | f + 1, n =>
    if n < 10 then [Nat.digitChar n]
    else natToCharsAux f (n / 10) ++ [Nat.digitChar (n % 10)]

def natToChars (n : Nat) : List Char := natToCharsAux (n + 1) n

/-- Value of the digit prefix of `t` (used to read a clause heading's number). -/
def parseDigitVal (t : List Char) : Nat :=
  (t.take (digitPrefixLen t)).foldl (fun a c => 10 * a + (c.toNat - 48)) 0

/-- The leading decimal number of a paragraph text, if it starts with digits. -/
def leadingNumOf (t : List Char) : Option Nat :=
  if 0 < digitPrefixLen t then some (parseDigitVal t) else none

/-- `re.match(r'^(\d+|XXX)\.\s+', t)`: `some e` is the end offset of the match
(the start offset is always 0).  The alternation is embedded without loss:
backtracking inside `\d+` can never succeed because a shorter digit prefix is
followed by a digit, not by `'.'`. -/
def pyMatchAt (t : List Char) (k : Nat) : Option Nat :=
  if (t.drop k).head? = some '.' ∧ 0 < wsPrefixLen (t.drop (k + 1)) then
    some (k + 1 + wsPrefixLen (t.drop (k + 1)))
  else none

def pyMatch (t : List Char) : Option Nat :=
  if 0 < digitPrefixLen t then pyMatchAt t (digitPrefixLen t)
  else if t.take 3 = ['X', 'X', 'X'] then pyMatchAt t 3
  else none

/-! ### Data model: runs, paragraphs, documents -/

/-- A python-docx `Run`: its text plus the character attributes the source reads
or writes.  `none` is Python `None` (attribute inherited / absent). -/
structure Run where
  text : List Char
  bold : Option Bool := none
  italic : Option Bool := none
  underline : Option Bool := none
  fontName : Option String := none
  fontSize : Option Nat := none
  fontColor : Option Nat := none
  allCaps : Option Bool := none
  /-- `run.style.font.italic` (character-style italic). -/
  styleFontItalic : Option Bool := none
deriving Repr, DecidableEq

/-- A python-docx `Paragraph`: runs plus the paragraph-level state the source
touches.  `styleChainItalics` lists `style.font.italic` along the paragraph
style's `base_style` chain; `hasItalicXml` models a non-empty
`para._p.xpath('.//w:i')`; `numPrs` lists the `<w:numPr>` (numId, ilvl) entries
of the paragraph properties. -/
structure Para where
  runs : List Run
  styleId : Option String := none
  styleChainItalics : List (Option Bool) := []
  hasItalicXml : Bool := false
  numPrs : List (String × String) := []
  alignment : Option Nat := none
  leftIndent : Option Int := none
  rightIndent : Option Int := none
  firstLineIndent : Option Int := none
deriving Repr, DecidableEq

/-- `paragraph.text`: the concatenation of the runs' text. -/
def paraText (p : Para) : List Char := (p.runs.map Run.text).flatten

/-- `any(run.bold for run in para.runs)` (Python truthiness). -/
def anyBold (p : Para) : Bool := p.runs.any (fun r => r.bold == some true)

/-- `any(run.underline for run in para.runs)`. -/
def anyUnderline (p : Para) : Bool := p.runs.any (fun r => r.underline == some true)

/-- `insert_paragraph_before(text)` / `insert_paragraph_after(paragraph, text)`:
a fresh paragraph, with one run only when `text` is truthy. -/
def newParagraph (t : List Char) : Para :=
  { runs := if t.isEmpty then [] else [{ text := t }] }

def blankPara : Para := newParagraph []

/-- Generic "first index `≥ start` whose element satisfies `f`" used by the
locator loops `for i in range(start, len(document.paragraphs))`. -/
def findIdxL {α : Type} (f : α → Bool) : List α → Option Nat
  | [] => none
  | a :: as => if f a then some 0 else (findIdxL f as).map (· + 1)

def findIdxFrom {α : Type} (f : α → Bool) (l : List α) (start : Nat) : Option Nat :=
  (findIdxL f (l.drop start)).map (· + start)

/-! ### utils.py, in source order -/

/-- `insert_before_with_numbering(source_para, text)`: the new paragraph that is
inserted just before `source_para` (placement is done at the call site); copies
the style and deep-copies the source's first `<w:numPr>`. -/
def insert_before_with_numbering (source : Para) (t : List Char) : Para :=
  let np := newParagraph t
  { np with
    styleId := source.styleId
    styleChainItalics := source.styleChainItalics
    numPrs := match source.numPrs.head? with | some x => [x] | none => [] }

/-- `get_numbering_props(paragraph)`: `(numId, ilvl)` of the first `<w:numPr>`. -/
def get_numbering_props (p : Para) : Option (String × String) := p.numPrs.head?

/-- `has_quotes(text)`: the stripped text starts with a straight or curly open
quote and the matching close quote occurs after position 0. -/
def has_quotes (t : List Char) : Bool :=
  let t := pyStrip t
  (startsWithL ['"'] t && containsC '"' (t.drop 1)) ||
  (startsWithL ['“'] t && containsC '”' (t.drop 1))

/-- `is_main_heading(para)`: ends with a period, fewer than 10 words, not quoted
(the source compares against the straight quote twice — embedded as written). -/
def is_main_heading (p : Para) : Bool :=
  let t := pyStrip (paraText p)
  endsWithL ['.'] t && wordCount t < 10 &&
    !(startsWithL ['"'] t || startsWithL ['"'] t)

/-- `find_next_main_heading_index(document, start_index)`; `none` is Python `None`. -/
def find_next_main_heading_index (d : List Para) (start : Nat) : Option Nat :=
  findIdxFrom is_main_heading d (start + 1)

structure StyleInfo where
  bold : Bool
  underline : Bool
  quotes : Bool
deriving Repr, DecidableEq

/-- The paragraph range `range(section_heading_index + 1, end_index)` where
`end_index` is the next main heading (or the document end). -/
def sectionScope (d : List Para) (i : Nat) : List Para :=
  let e := (find_next_main_heading_index d i).getD d.length
  (d.take e).drop (i + 1)

/-- Scanning loop of `detect_clause_heading_style`. -/
def detect_go : List Para → StyleInfo
  | [] => ⟨true, false, false⟩
  | p :: ps =>
    let t := pyStrip (paraText p)
    if t.isEmpty then detect_go ps
    else if !p.runs.isEmpty && t.length < 60 then
      let b := anyBold p
      let u := anyUnderline p
      let q := has_quotes t
      if b || u || q then ⟨b, u, q⟩ else detect_go ps
    else detect_go ps

/-- `detect_clause_heading_style(document, section_heading_index=None)`. -/
def detect_clause_heading_style (d : List Para) (sectionIdx : Option Nat) : StyleInfo :=
  match sectionIdx with
  | some i => detect_go (sectionScope d i)
  | none => detect_go d

/-- The normalisation closure of `find_clause_index_by_heading` (default
arguments: case-insensitive, quote characters stripped from both ends). -/
def pyQUOTES : List Char := ['"', '“', '”', '„', '‟', '″', '‶']

def fc_normalize (t : List Char) : List Char :=
  let t1 := pyStrip t
  let t2 := t1.dropWhile (fun c => pyQUOTES.contains c)
  let t3 := (t2.reverse.dropWhile (fun c => pyQUOTES.contains c)).reverse
  lowerL t3

/-- `find_clause_index_by_heading(document, heading)`; `none` is Python `None`. -/
def find_clause_index_by_heading (d : List Para) (heading : List Char) : Option Nat :=
  findIdxL (fun p => fc_normalize (paraText p) == fc_normalize heading) d

/-- Heading classifier inlined in `find_next_heading_index` (straight quotes on
both sides, per the source bytes). -/
def fnh_is_heading (si : StyleInfo) (p : Para) : Bool :=
  let t := pyStrip (paraText p)
  if t.isEmpty then false
  else if si.quotes && startsWithL ['"'] t && endsWithL ['"'] t then true
  else if si.bold && anyBold p then (if si.underline then anyUnderline p else true)
  else false

/-- `find_next_heading_index(document, start_index, style_info)`; `none` is `None`. -/
def find_next_heading_index (d : List Para) (start : Nat) (si : StyleInfo) : Option Nat :=
  findIdxFrom (fnh_is_heading si) d (start + 1)

/-- `apply_numbering_from_template(new_para, template_para)`: appends a fresh
`<w:numPr>` when the template has truthy numbering properties. -/
def apply_numbering_from_template (np tp : Para) : Para :=
  match get_numbering_props tp with
  | some (numId, ilvl) =>
    if numId ≠ "" && ilvl ≠ "" then { np with numPrs := np.numPrs ++ [(numId, ilvl)] }
    else np
  | none => np

/-- `detect_quote_style(text, default_to_curly=True)`: straight pair when the
stripped text is straight-quoted on both ends, else the curly default. -/
def detect_quote_style (t : List Char) (default_to_curly : Bool) : Option Char × Option Char :=
  let t := pyStrip t
  if startsWithL ['"'] t && endsWithL ['"'] t then (some '"', some '"')
  else if default_to_curly then (some '“', some '”') else (none, none)

/-- Loop body of `find_first_heading_with_quotes`. -/
def ffhq_go : List Para → Option Char × Option Char
  | [] => (none, none)
  | p :: ps =>
    match detect_quote_style (pyStrip (paraText p)) true with
    | (some o, some c) => (some o, some c)
    | _ => ffhq_go ps

/-- `find_first_heading_with_quotes(document, start_index)`. -/
def find_first_heading_with_quotes (d : List Para) (start : Nat) : Option Char × Option Char :=
  ffhq_go (d.drop (start + 1))

/-- `is_clause_heading(para, style_info)`. -/
def is_clause_heading (p : Para) (si : StyleInfo) : Bool :=
  let t := pyStrip (paraText p)
  if t.isEmpty then false
  else if si.quotes && has_quotes t then true
  else if si.bold && anyBold p then (if si.underline then anyUnderline p else true)
  else false

/-- `run.italic is True`, or character-style italic, per the first disjunct of
`has_italic` in `section_clause_headings_style`. -/
def runItalicOrStyle (r : Run) : Bool :=
  r.italic == some true || r.styleFontItalic == some true

/-- The full `has_italic` check: any run italic / character-style italic, else
the paragraph style inheritance chain, else raw `<w:i/>` markup. -/
def para_has_italic (p : Para) : Bool :=
  p.runs.any runItalicOrStyle || p.styleChainItalics.any (· == some true) || p.hasItalicXml

/-- Tally loop of `section_clause_headings_style`:
(quote_count, bold_count, italic_count, underline_count, total). -/
def scs_tally (si : StyleInfo) : List Para → Nat × Nat × Nat × Nat × Nat
  | [] => (0, 0, 0, 0, 0)
  | p :: ps =>
    let (q, b, i, u, tot) := scs_tally si ps
    if is_clause_heading p si then
      (q + (if has_quotes (pyStrip (paraText p)) then 1 else 0),
       b + (if anyBold p then 1 else 0),
       i + (if para_has_italic p then 1 else 0),
       u + (if anyUnderline p then 1 else 0),
       tot + 1)
    else (q, b, i, u, tot)

structure SectionStyle where
  use_quotes : Bool
  use_bold : Bool
  use_italic : Bool
  use_underline : Bool
deriving Repr, DecidableEq

/-- `section_clause_headings_style(document, section_heading_index, style_info)`. -/
def section_clause_headings_style (d : List Para) (i : Nat) (si? : Option StyleInfo) :
    SectionStyle :=
  let si := si?.getD (detect_clause_heading_style d (some i))
  let (q, b, it, u, tot) := scs_tally si (sectionScope d i)
  if tot = 0 then ⟨si.quotes, si.bold, false, si.underline⟩
  else ⟨decide (tot / 2 < q), decide (tot / 2 < b), decide (tot / 2 < it),
        decide (tot / 2 < u)⟩

/-- `normalize`d comparison text in the `after_clause` search of
`insert_styled_numbered_clause_after_heading` (same closure as the one in
`find_clause_index_by_heading`). -/
def ac_is_heading (si : StyleInfo) (p : Para) : Bool :=
  let t := pyStrip (paraText p)
  if si.quotes && ((startsWithL ['"'] t && endsWithL ['"'] t) ||
                   (startsWithL ['"'] t && endsWithL ['"'] t)) then true
  else if si.bold && anyBold p then (if si.underline then anyUnderline p else true)
  else false

def findAfterClauseIndex (d : List Para) (index : Nat) (si : StyleInfo)
    (ac : List Char) : Option Nat :=
  findIdxFrom
    (fun p => ac_is_heading si p &&
      startsWithL (fc_normalize ac) (fc_normalize (pyStrip (paraText p))))
    d (index + 1)

/-- Template choice of `insert_styled_numbered_clause_after_heading`: the next
heading after the insertion point, else the document's last paragraph. -/
def numbered_template_index (d : List Para) (insert_after_index : Nat)
    (si : StyleInfo) : Nat :=
  match find_next_heading_index d insert_after_index si with
  | some j => j
  | none => d.length - 1

/-- Construction of the new heading+body paragraph of
`insert_styled_numbered_clause_after_heading` (lines 381–420): section style by
majority vote, quote pair from the template, runs, numbering copy. -/
def numbered_new_para (d : List Para) (heading_text definition_text : List Char)
    (index insert_after_index : Nat) : Para :=
  let style_info := detect_clause_heading_style d (some index)
  let section_style := section_clause_headings_style d index (some style_info)
  let template_para := d.getD (numbered_template_index d insert_after_index style_info) blankPara
  let oc0 := detect_quote_style (pyStrip (paraText template_para)) true
  let oc1 :=
    match oc0 with
    | (some o, some c) => (some o, some c)
    | _ => find_first_heading_with_quotes d insert_after_index
  let oc2 :=
    match oc1 with
    | (some o, some c) => (some o, some c)
    | _ => detect_quote_style [] true
  let np0 := insert_before_with_numbering template_para []
  let headingRun : Run :=
    { text := heading_text, bold := some section_style.use_bold,
      italic := some section_style.use_italic,
      underline := some section_style.use_underline }
  let np1 :=
    match section_style.use_quotes, oc2 with
    | true, (some o, some c) =>
      { np0 with runs := np0.runs ++
          [({ text := [o] } : Run), headingRun, ({ text := [c] } : Run)] }
    | _, _ => { np0 with runs := np0.runs ++ [headingRun] }
  let np2 := { np1 with runs := np1.runs ++ [{ text := ' ' :: definition_text }] }
  apply_numbering_from_template np2 template_para

/-- `insert_styled_numbered_clause_after_heading(document, after_heading,
heading_text, definition_text, after_clause=None)`. -/
def insert_styled_numbered_clause_after_heading (d : List Para)
    (after_heading heading_text definition_text : List Char)
    (after_clause : Option (List Char)) : Except String (List Para) :=
  match find_clause_index_by_heading d after_heading with
  | none => .error ("Heading not found in document.")
  | some index =>
    let style_info := detect_clause_heading_style d (some index)
    let iai : Except String Nat :=
      match after_clause with
      | none => .ok index
      | some ac =>
        match findAfterClauseIndex d index style_info ac with
        | some i => .ok i
        | none => .error ("after_clause not found under heading.")
    match iai with
    | .error e => .error e
    | .ok insert_after_index =>
      let ti := numbered_template_index d insert_after_index style_info
      .ok (d.take ti ++
        numbered_new_para d heading_text definition_text index insert_after_index ::
        d.drop ti)

/-- `renumber_clauses_preserve_formatting`, inner run loop.  `start` of the span
is always 0 (`re.match` is anchored), so `rel_start = max(0, 0 - chars_seen) = 0`
and the replacement writes `str(clause_number) + ". "` at the head of the first
run satisfying the overlap test, then `break`s. -/
def renumberRunsGo (n e chars_seen : Nat) : List Run → List Run
  | [] => []
  | r :: rs =>
    if chars_seen < e ∧ 0 < chars_seen + r.text.length then
      { r with text := natToChars n ++ '.' :: ' ' ::
          r.text.drop (min r.text.length (e - chars_seen)) } :: rs
    else r :: renumberRunsGo n e (chars_seen + r.text.length) rs

/-- The value the overlap test's run takes: `str(n) + ". "` written over the
run's overlap with the span (`rel_start = 0`, `rel_end = min len e` at
`chars_seen = 0`). -/
def splicedRun (n e : Nat) (r0 : Run) : Run :=
  { r0 with
    text := natToChars n ++ '.' :: ' ' :: r0.text.drop (min r0.text.length e) }

/-- One paragraph step: re-match on the concatenated run text and splice. -/
def renumberPara (n : Nat) (p : Para) : Para :=
  match pyMatch (paraText p) with
  | some e => { p with runs := renumberRunsGo n e 0 p.runs }
  | none => p

/-- Document loop: the counter advances on every paragraph whose *stripped*
text matches, whether or not the splice on the unstripped text succeeded. -/
def renumberGo (n : Nat) : List Para → List Para
  | [] => []
  | p :: ps =>
    if (pyMatch (pyStrip (paraText p))).isSome then
      renumberPara n p :: renumberGo (n + 1) ps
    else p :: renumberGo n ps

/-- `renumber_clauses_preserve_formatting(document)`. -/
def renumber_clauses_preserve_formatting (d : List Para) : List Para := renumberGo 1 d

/-- Font copy of `copy_font` in `add_heading_runs`: name/size/color are copied
independently when truthy on the source run. -/
def copyFontFields (src : Option Run) (r : Run) : Run :=
  match src with
  | none => r
  | some s =>
    let r1 := match s.fontName with
      | some nm => if nm ≠ "" then { r with fontName := some nm } else r
      | none => r
    let r2 := match s.fontSize with
      | some sz => if sz ≠ 0 then { r1 with fontSize := some sz } else r1
      | none => r1
    match s.fontColor with
    | some cl => { r2 with fontColor := some cl }
    | none => r2

/-- `copy_font(dst, src, bold, italic, underline)` applied to a fresh run. -/
def copy_font (t : List Char) (src : Option Run) (b i u : Bool) : Run :=
  let r := copyFontFields src { text := t }
  { r with bold := some b, italic := some i, underline := some u }

/-- `add_heading_runs(paragraph, number_part, heading_part, period_part,
src_run, style_info)`.  `style_info.get("italic", False)` is `False`: the dict
produced by `detect_clause_heading_style` has no `italic` key. -/
def add_heading_runs (p : Para) (number_part heading_part period_part : List Char)
    (src : Option Run) (si : StyleInfo) : Para :=
  let number_run := copy_font number_part src true false false
  let heading_run := copy_font heading_part src
    (match src with | some s => (match s.bold with | some b => b | none => si.bold)
                    | none => si.bold)
    (match src with | some s => (match s.italic with | some b => b | none => false)
                    | none => false)
    (match src with | some s => (match s.underline with | some b => b | none => si.underline)
                    | none => si.underline)
  let period_run := copy_font period_part src false false false
  { p with runs := p.runs ++ [number_run, heading_run, period_run] }

/-- `normalize_heading` closure of the after/before clause inserts: strip a
leading `^\d+\.\s*`, strip, lowercase. -/
def normalize_heading (t : List Char) : List Char :=
  let s := pyStrip t
  let d := digitPrefixLen s
  let s' :=
    if 0 < d && (s.drop d).head? = some '.' then
      s.drop (d + 1 + wsPrefixLen (s.drop (d + 1)))
    else s
  lowerL s'

/-- `extract_clause_heading` closure: the prefix matched by
`^(\d+\.\s*[^.]+\.)` — digits, a period, then everything up to (and including)
the next period, provided at least one character lies between — else the
stripped text. -/
def extract_clause_heading (t : List Char) : List Char :=
  let s := pyStrip t
  let d := digitPrefixLen s
  if 0 < d && (s.drop d).head? = some '.' then
    match findSubstr ['.'] (s.drop (d + 1)) with
    | some k => if 1 ≤ k then s.take (d + 2 + k) else s
    | none => s
  else s

/-- Anchor scan shared by `insert_styled_clause_after_clause` and
`insert_styled_clause_before_clause`. -/
def clause_anchor_index (d : List Para) (heading : List Char) : Option Nat :=
  findIdxL
    (fun p => normalize_heading (extract_clause_heading (paraText p)) ==
              normalize_heading heading)
    d

/-- Number/heading/period split of `insert_styled_clause_after_clause`
(lines 611–621), applied to `full_heading = f"XXX. {new_clause_heading}."`. -/
def after_clause_split (full_heading : List Char) :
    List Char × List Char × List Char :=
  match findSubstr ['.', ' '] full_heading, rfindChar '.' full_heading with
  | some f, some l =>
    if f < l then
      (full_heading.take (f + 2),
       (full_heading.drop (f + 2)).take (l - (f + 2)),
       [full_heading.getD l '.', ' '])
    else ([], pyStrip full_heading, [' '])
  | _, _ => ([], pyStrip full_heading, [' '])

/-- Number/period split of `insert_styled_clause_before_clause` (lines 688–697),
applied to the stripped text of the clause being inserted before. -/
def before_clause_number_period (bt : List Char) : List Char × List Char :=
  match findSubstr ['.', ' '] bt, rfindChar '.' bt with
  | some f, some l =>
    if f < l then (bt.take (f + 2), [bt.getD l '.', ' '])
    else (['X', 'X', 'X', '.', ' '], ['.', ' '])
  | _, _ => (['X', 'X', 'X', '.', ' '], ['.', ' '])

/-- Condition under which the number/period split of
`insert_styled_clause_before_clause` takes its fallback branch: no `". "`
occurrence, or no `'.'`, or the last `'.'` not strictly after the `". "`. -/
def before_split_failed (bt : List Char) : Bool :=
  match findSubstr ['.', ' '] bt, rfindChar '.' bt with
  | some f, some l => !(f < l)
  | _, _ => true

/-- Body-run construction and paragraph-format copy shared by the two
single-paragraph clause inserts (lines 628–647 / 703–723). -/
def clause_body_run (src : Option Run) (body : List Char) : Run :=
  let br := copyFontFields src { text := body }
  { br with bold := some false, italic := some false, underline := some false }

def copy_para_format (src p : Para) : Para :=
  let p1 := { p with alignment := src.alignment }
  let p2 := match src.leftIndent with
    | some v => { p1 with leftIndent := some v } | none => p1
  let p3 := match src.rightIndent with
    | some v => { p2 with rightIndent := some v } | none => p2
  match src.firstLineIndent with
  | some v => { p3 with firstLineIndent := some v } | none => p3

/-- Construction of the new single-paragraph clause of
`insert_styled_clause_after_clause` (lines 610–647), for anchor index `i`.
The style detection at line 623 runs on the document that already holds the two
freshly inserted (still empty) paragraphs. -/
def after_clause_new_para (d : List Para) (i : Nat)
    (new_clause_heading new_clause_body : List Char) : Para :=
  let after_para := d.getD i blankPara
  let full_heading := ['X', 'X', 'X', '.', ' '] ++ new_clause_heading ++ ['.']
  let (number_part, heading_part, period_part) := after_clause_split full_heading
  let d1 := d.take (i + 1) ++ blankPara :: blankPara :: d.drop (i + 1)
  let style_info := detect_clause_heading_style d1 none
  let src_run := after_para.runs.head?
  let np0 := add_heading_runs blankPara number_part heading_part period_part
               src_run style_info
  let np1 := { np0 with runs := np0.runs ++ [clause_body_run src_run new_clause_body] }
  copy_para_format after_para np1

/-- `insert_styled_clause_after_clause(document, after_clause_heading,
new_clause_heading, new_clause_body)`. -/
def insert_styled_clause_after_clause (d : List Para)
    (after_clause_heading new_clause_heading new_clause_body : List Char) :
    Except String (List Para) :=
  match clause_anchor_index d after_clause_heading with
  | none => .error ("Clause heading not found in document.")
  | some i =>
    .ok (renumber_clauses_preserve_formatting
      (d.take (i + 1) ++ blankPara ::
        after_clause_new_para d i new_clause_heading new_clause_body :: d.drop (i + 1)))

/-- Construction of the new single-paragraph clause of
`insert_styled_clause_before_clause` (lines 688–723), for anchor index `i`. -/
def before_clause_new_para (d : List Para) (i : Nat)
    (new_clause_heading new_clause_body : List Char) : Para :=
  let before_para := d.getD i blankPara
  let bt := pyStrip (paraText before_para)
  let (number_part, period_part) := before_clause_number_period bt
  let heading_part := new_clause_heading
  let d1 := d.take i ++ blankPara :: blankPara :: d.drop i
  let style_info := detect_clause_heading_style d1 none
  let src_run := before_para.runs.head?
  let np0 := add_heading_runs blankPara number_part heading_part period_part
               src_run style_info
  let np1 := { np0 with runs := np0.runs ++ [clause_body_run src_run new_clause_body] }
  copy_para_format before_para np1

/-- `insert_styled_clause_before_clause(document, before_clause_heading,
new_clause_heading, new_clause_body)`. -/
def insert_styled_clause_before_clause (d : List Para)
    (before_clause_heading new_clause_heading new_clause_body : List Char) :
    Except String (List Para) :=
  match clause_anchor_index d before_clause_heading with
  | none => .error ("Clause heading not found in document.")
  | some i =>
    .ok (renumber_clauses_preserve_formatting
      (d.take i ++ blankPara ::
        before_clause_new_para d i new_clause_heading new_clause_body :: d.drop i))

/-! ### insert_sentence_in_clause -/

/-- `re.split(r'([.!?])\s+', text)`: segments interleaved with the captured
punctuation characters.  Fuel-driven so the definition reduces; the initial
fuel `t.length + 1` always suffices since every step consumes a character. -/
def splitPartsGo : Nat → List Char → List Char → List (List Char)
  | 0, acc, rest => [acc.reverse ++ rest]
  | _ + 1, acc, [] => [acc.reverse]
  | fuel + 1, acc, c :: rest =>
    if (c = '.' || c = '!' || c = '?') && 0 < wsPrefixLen rest then
      acc.reverse :: [c] :: splitPartsGo fuel [] (rest.drop (wsPrefixLen rest))
    else splitPartsGo fuel (c :: acc) rest

def splitParts (t : List Char) : List (List Char) := splitPartsGo (t.length + 1) [] t

/-- `for i in range(0, len(parts)-1, 2): sentences.append(parts[i] + parts[i+1].strip())`. -/
def pairUp : List (List Char) → List (List Char)
  | a :: b :: rest => (a ++ pyStrip b) :: pairUp rest
  | _ => []

/-- Sentence list construction of `insert_sentence_in_clause`. -/
def buildSentences (t : List Char) : List (List Char) :=
  let parts := splitParts t
  pairUp parts ++
    (if parts.length % 2 = 1 && !(pyStrip (parts.getLastD [])).isEmpty then
      [pyStrip (parts.getLastD [])]
    else [])

/-- Python `list.insert(i, x)` (negative indices clamp at 0, large at the end). -/
def pyListInsert {α : Type} (l : List α) (i : Int) (x : α) : List α :=
  let pos : Nat := if i < 0 then ((l.length : Int) + i).toNat else min i.toNat l.length
  l.take pos ++ x :: l.drop pos

/-- Python `str.isupper()` (ASCII): at least one letter and no lowercase letter. -/
def pyIsUpper (t : List Char) : Bool :=
  t.any (fun c => c.isAlpha) && t.all (fun c => !c.isLower)

/-- Anchor scan of `insert_sentence_in_clause`. -/
def sentence_target_idx (d : List Para) (starts_with : List Char) : Option Nat :=
  findIdxL (fun p => startsWithL (lowerL starts_with) (lowerL (pyStrip (paraText p)))) d

/-- `was_all_caps`: every run with non-blank text has a truthy `all_caps`
attribute or all-uppercase text (vacuously true with no such run). -/
def wasAllCaps (p : Para) : Bool :=
  p.runs.all (fun r =>
    if (pyStrip r.text).isEmpty then true
    else r.allCaps == some true || pyIsUpper r.text)

/-- `insert_sentence_in_clause(doc, starts_with, sentence, index)`. -/
def insert_sentence_in_clause (d : List Para) (starts_with sentence : List Char)
    (index : Int) : Except String (List Para) :=
  match sentence_target_idx d starts_with with
  | none => .error ("No paragraph starts with the given prefix.")
  | some j =>
    let p := d.getD j blankPara
    let sentences := buildSentences (pyStrip (paraText p))
    let sentences2 :=
      if index = -1 || (sentences.length : Int) ≤ index then
        sentences ++ [pyStrip sentence]
      else pyListInsert sentences index (pyStrip sentence)
    let new_text := List.intercalate [' '] sentences2
    let cleared := p.runs.map (fun r => { r with text := ([] : List Char) })
    let new_run : Run :=
      { text := new_text, allCaps := if wasAllCaps p then some true else none }
    .ok (d.set j { p with runs := cleared ++ [new_run] })

/-! ### Observations used by the claims -/

/-- The leading numbers of the top-level numbered clause headings, in document
order: one entry per paragraph whose full run-concatenated text matches
`^(\d+|XXX)\.\s+`; the entry is the decimal value of its digit prefix
(`none` for an `XXX` placeholder heading). -/
def headingNums (d : List Para) : List (Option Nat) :=
  d.filterMap (fun p =>
    if (pyMatch (paraText p)).isSome then some (leadingNumOf (paraText p)) else none)

/-- The mismatch-free condition on a document: a paragraph's run-concatenated
text matches `^(\d+|XXX)\.\s+` exactly when its stripped text does.  Ordinary
documents (no leading whitespace inside a numbered heading, no heading that is
only a number) satisfy it. -/
def MatchStripAgree (d : List Para) : Prop :=
  ∀ p ∈ d, ((pyMatch (paraText p)).isSome ↔ (pyMatch (pyStrip (paraText p))).isSome)

instance (d : List Para) : Decidable (MatchStripAgree d) := by
  unfold MatchStripAgree; infer_instance

/-! ### Concrete example documents -/

/-- A paragraph with a single plain run. -/
def para1 (t : List Char) : Para := { runs := [{ text := t }] }

/-- A paragraph with a single bold run. -/
def paraB (t : List Char) : Para := { runs := [{ text := t, bold := some true }] }

/-- Document whose first paragraph is the bare text `"5. "`: its unstripped text
matches the clause-number pattern but its stripped text `"5."` does not, so the
renumberer never touches it. -/
def exDocFive : List Para := [para1 (("5. ").data), para1 (("1. Beta. Body").data)]

/-- Document whose only paragraph carries the numeric prefix split across two
runs: `"1"` and `". Alfa body"`. -/
def exDocStraddle : List Para := [{ runs := [{ text := ("1").data },
                                             { text := (". Alfa body").data }] }]

/-- One-clause document, the anchor for before/after inserts. -/
def exDocBeta : List Para := [para1 (("1. Beta. Body").data)]

/-- Document whose only paragraph has no `". "` at all, driving the
number/period split of `insert_styled_clause_before_clause` into its fallback. -/
def exDocBare : List Para := [para1 (("Beta").data)]

/-- Three-sentence paragraph for `insert_sentence_in_clause`. -/
def exDocSent : List Para := [para1 (("Aa. Bb. Cc.").data)]

/-- A section heading followed by two uniformly bold+quoted clause headings. -/
def exDocSection : List Para :=
  [para1 (("Definitions.").data),
   paraB (("\"Affiliate\" means x").data),
   paraB (("\"Term\" means y").data)]

/-- A section heading followed by a single plain body paragraph: no clause
heading exists after the insertion point. -/
def exDocNoHeading : List Para :=
  [para1 (("Definitions.").data),
   para1 (("just some plain body text here").data)]

/-- Result documents of the operations on the example documents, extracted so
that closed witness statements need no existential quantifier. -/
def exResFive : List Para :=
  (insert_styled_clause_after_clause exDocFive (("Beta.").data) (("New").data)
    (("body").data)).toOption.getD []

def exResBeta : List Para :=
  (insert_styled_clause_after_clause exDocBeta (("Beta.").data) (("New").data)
    (("body").data)).toOption.getD []

def exResBetaBefore : List Para :=
  (insert_styled_clause_before_clause exDocBeta (("Beta.").data) (("New").data)
    (("body").data)).toOption.getD []

def exResSentIns : List Para :=
  (insert_sentence_in_clause exDocSent (("aa").data) (("Xx.").data)
    1).toOption.getD []


/-! ### Helper lemmas -/

set_option maxRecDepth 40000

lemma rfindChar_concat_self (c : Char) (l : List Char) :
    rfindChar c (l ++ [c]) = some l.length := by
  induction l with
  | nil => simp [rfindChar]
  | cons x xs ih => simp [rfindChar, ih]

lemma apply_numbering_styleId (np tp : Para) :
    (apply_numbering_from_template np tp).styleId = np.styleId := by
  unfold apply_numbering_from_template
  rcases get_numbering_props tp with _ | ⟨a, b⟩
  · rfl
  · dsimp only
    split <;> rfl

lemma apply_numbering_styleChain (np tp : Para) :
    (apply_numbering_from_template np tp).styleChainItalics = np.styleChainItalics := by
  unfold apply_numbering_from_template
  rcases get_numbering_props tp with _ | ⟨a, b⟩
  · rfl
  · dsimp only
    split <;> rfl

lemma numbered_new_para_styleId (d : List Para) (ht dt : List Char) (idx iai : Nat) :
    (numbered_new_para d ht dt idx iai).styleId =
      (d.getD (numbered_template_index d iai (detect_clause_heading_style d (some idx)))
        blankPara).styleId := by
  unfold numbered_new_para
  rw [apply_numbering_styleId]
  dsimp only
  split <;> rfl

lemma numbered_new_para_styleChain (d : List Para) (ht dt : List Char) (idx iai : Nat) :
    (numbered_new_para d ht dt idx iai).styleChainItalics =
      (d.getD (numbered_template_index d iai (detect_clause_heading_style d (some idx)))
        blankPara).styleChainItalics := by
  unfold numbered_new_para
  rw [apply_numbering_styleChain]
  dsimp only
  split <;> rfl

lemma scs_tally_eq (si : StyleInfo) (l : List Para) :
    scs_tally si l =
      ((l.filter (fun p => is_clause_heading p si)).countP
         (fun p => has_quotes (pyStrip (paraText p))),
       (l.filter (fun p => is_clause_heading p si)).countP anyBold,
       (l.filter (fun p => is_clause_heading p si)).countP para_has_italic,
       (l.filter (fun p => is_clause_heading p si)).countP anyUnderline,
       (l.filter (fun p => is_clause_heading p si)).length) := by
  induction l with
  | nil => rfl
  | cons p ps ih =>
    by_cases h : is_clause_heading p si
    · simp [scs_tally, ih, List.filter_cons, h, List.countP_cons, Nat.add_comm]
    · simp [scs_tally, ih, List.filter_cons, h]

/-! ### Claim C4 -/

/-- C4: for each of the four splice operations, when the named
heading / clause / sentence-prefix anchor cannot be located, the operation
returns a hard failure (`Except.error`), and — the embedding being the function
composition of anchor resolution first, construction and splicing after — the
document is not touched: anchor resolution precedes any paragraph construction
or mutation. -/
theorem C4_anchor_failure_aborts (d : List Para) (h ht dt ac sw s : List Char)
    (i : Int) :
    (find_clause_index_by_heading d h = none →
      insert_styled_numbered_clause_after_heading d h ht dt none =
        Except.error ("Heading not found in document.")) ∧
    (∀ idx, find_clause_index_by_heading d h = some idx →
      findAfterClauseIndex d idx (detect_clause_heading_style d (some idx)) ac = none →
      insert_styled_numbered_clause_after_heading d h ht dt (some ac) =
        Except.error ("after_clause not found under heading.")) ∧
    (clause_anchor_index d h = none →
      insert_styled_clause_after_clause d h ht dt =
        Except.error ("Clause heading not found in document.")) ∧
    (clause_anchor_index d h = none →
      insert_styled_clause_before_clause d h ht dt =
        Except.error ("Clause heading not found in document.")) ∧
    (sentence_target_idx d sw = none →
      insert_sentence_in_clause d sw s i =
        Except.error ("No paragraph starts with the given prefix.")) := by
  refine ⟨?_, ?_, ?_, ?_, ?_⟩
  · intro hn
    simp only [insert_styled_numbered_clause_after_heading, hn]
  · intro idx hf hac
    simp only [insert_styled_numbered_clause_after_heading, hf, hac]
  · intro hn
    simp only [insert_styled_clause_after_clause, hn]
  · intro hn
    simp only [insert_styled_clause_before_clause, hn]
  · intro hn
    simp only [insert_sentence_in_clause, hn]

/-- Witness for C4 at concrete inputs: an empty document (no anchors at all)
and a document whose section heading exists but whose `after_clause` does not. -/
theorem C4_anchor_failure_aborts_witness :
    insert_styled_numbered_clause_after_heading [] (("D.").data) (("A").data)
      (("b").data) none = Except.error ("Heading not found in document.") ∧
    insert_styled_numbered_clause_after_heading exDocNoHeading
      (("Definitions.").data) (("A").data) (("b").data) (some (("Nope").data)) =
      Except.error ("after_clause not found under heading.") ∧
    insert_styled_clause_after_clause [] (("D.").data) (("A").data) (("b").data) =
      Except.error ("Clause heading not found in document.") ∧
    insert_styled_clause_before_clause [] (("D.").data) (("A").data) (("b").data) =
      Except.error ("Clause heading not found in document.") ∧
    insert_sentence_in_clause [] (("D").data) (("A").data) 0 =
      Except.error ("No paragraph starts with the given prefix.") :=
  ⟨(C4_anchor_failure_aborts [] (("D.").data) (("A").data) (("b").data)
      (("x").data) (("x").data) (("x").data) 0).1 (by decide),
   (C4_anchor_failure_aborts exDocNoHeading (("Definitions.").data) (("A").data)
      (("b").data) (("Nope").data) (("x").data) (("x").data) 0).2.1 0
      (by decide) (by decide),
   (C4_anchor_failure_aborts [] (("D.").data) (("A").data) (("b").data)
      (("x").data) (("x").data) (("x").data) 0).2.2.1 (by decide),
   (C4_anchor_failure_aborts [] (("D.").data) (("A").data) (("b").data)
      (("x").data) (("x").data) (("x").data) 0).2.2.2.1 (by decide),
   (C4_anchor_failure_aborts [] (("D.").data) (("A").data) (("b").data)
      (("x").data) (("D").data) (("A").data) 0).2.2.2.2 (by decide)⟩

/-! ### Claim C5 -/

/-- C5 counterexample: the three heading locators do not raise on a not-found
condition — each returns the sentinel `None` (embedded as `none`).  On the
concrete document `exDocFive`, no paragraph matches the heading `"Missing"`, no
paragraph after index 0 is a main heading, and no paragraph after index 0 is a
clause heading under the default profile, yet all three calls return the
sentinel instead of a failure. -/
theorem C5_counterexample :
    find_clause_index_by_heading exDocFive (("Missing").data) = none ∧
    find_next_main_heading_index exDocFive 0 = none ∧
    find_next_heading_index exDocFive 0 ⟨true, false, false⟩ = none := by decide

/-- C5 amended: the locators return the sentinel `none`; the named failure for
`find_clause_index_by_heading` is raised by its caller (the splice operation),
while the not-found results of `find_next_main_heading_index` and
`find_next_heading_index` are absorbed by documented fallbacks — the section
scope runs to the end of the document, and the template falls back to the last
paragraph — rather than being raised. -/
theorem C5_sentinel_amended (d : List Para) (h ht dt : List Char)
    (i start : Nat) (si : StyleInfo) :
    (find_clause_index_by_heading d h = none →
      insert_styled_numbered_clause_after_heading d h ht dt none =
        Except.error ("Heading not found in document.")) ∧
    (find_next_main_heading_index d i = none →
      sectionScope d i = d.drop (i + 1)) ∧
    (find_next_heading_index d start si = none →
      numbered_template_index d start si = d.length - 1) := by
  refine ⟨?_, ?_, ?_⟩
  · intro hn
    simp only [insert_styled_numbered_clause_after_heading, hn]
  · intro hn
    simp only [sectionScope, hn, Option.getD_none, List.take_length]
  · intro hn
    simp only [numbered_template_index, hn]

/-- Witness for C5 amended at a concrete input. -/
theorem C5_sentinel_amended_witness :
    insert_styled_numbered_clause_after_heading exDocFive (("Missing").data)
      (("A").data) (("b").data) none =
      Except.error ("Heading not found in document.") ∧
    sectionScope exDocFive 0 = exDocFive.drop 1 ∧
    numbered_template_index exDocFive 0 ⟨true, false, false⟩ = 1 :=
  ⟨(C5_sentinel_amended exDocFive (("Missing").data) (("A").data) (("b").data)
      0 0 ⟨true, false, false⟩).1 (by decide),
   (C5_sentinel_amended exDocFive (("Missing").data) (("A").data) (("b").data)
      0 0 ⟨true, false, false⟩).2.1 (by decide),
   (C5_sentinel_amended exDocFive (("Missing").data) (("A").data) (("b").data)
      0 0 ⟨true, false, false⟩).2.2 (by decide)⟩

/-! ### Claim C8 -/

/-- C8 counterexample: when the number/period split of
`insert_styled_clause_before_clause` fails (anchor text `"Beta"` has no `". "`),
the fallback is `number_part = "XXX. "` — not `number_part = ""` with the whole
text as heading, as the claim states — and the operation indeed does not fail. -/
theorem C8_counterexample :
    before_clause_number_period (("Beta").data) = ((("XXX. ").data), ((". ").data)) ∧
    (("XXX. ").data) ≠ ([] : List Char) ∧
    (insert_styled_clause_before_clause exDocBare (("Beta").data) (("New").data)
      (("body").data)).toOption.isSome = true := by decide

/-- `List.getD` at the position of a concatenated last element. -/
lemma getD_concat_length {α : Type} (l : List α) (c d : α) :
    (l ++ [c]).getD l.length d = c := by
  induction l with
  | nil => rfl
  | cons x xs ih =>
    simp only [List.cons_append, List.length_cons, List.getD_cons_succ]
    exact ih

/-- C8 amended: the split never fails in `insert_styled_clause_after_clause` —
`full_heading = f"XXX. {heading}."` always contains `". "` at offset 3 and a
final `'.'`, so the split is exactly `("XXX. ", heading, ". ")` and the
`number_part = ""` fallback branch is unreachable; in
`insert_styled_clause_before_clause` a failed split degrades, without failing
the operation, to the placeholder `number_part = "XXX. "`, `period_part = ". "`,
with the *new* clause heading (not the anchor text) as heading part. -/
theorem C8_fallback_amended (h bt : List Char) :
    after_clause_split (['X', 'X', 'X', '.', ' '] ++ h ++ ['.']) =
      (['X', 'X', 'X', '.', ' '], h, ['.', ' ']) ∧
    (before_split_failed bt = true →
      before_clause_number_period bt = (['X', 'X', 'X', '.', ' '], ['.', ' '])) := by
  constructor
  · have hfind : findSubstr ['.', ' '] (['X', 'X', 'X', '.', ' '] ++ h ++ ['.']) =
        some 3 := by
      simp [findSubstr, startsWithL]
    have hlen : (['X', 'X', 'X', '.', ' '] ++ h).length = 5 + h.length := by
      simp only [List.length_append, List.length_cons, List.length_nil]
    have hrfind : rfindChar '.' (['X', 'X', 'X', '.', ' '] ++ h ++ ['.']) =
        some (5 + h.length) := by
      rw [rfindChar_concat_self, hlen]
    unfold after_clause_split
    rw [hfind, hrfind]
    have h35 : 3 < 5 + h.length := by omega
    simp only [h35, if_true, Prod.mk.injEq]
    refine ⟨rfl, ?_, ?_⟩
    · have hd : (['X', 'X', 'X', '.', ' '] ++ h ++ ['.']).drop (3 + 2) = h ++ ['.'] := rfl
      rw [hd]
      have h5 : 5 + h.length - (3 + 2) = h.length := by omega
      rw [h5]
      exact List.take_left h ['.']
    · have hg : (['X', 'X', 'X', '.', ' '] ++ h ++ ['.']).getD (5 + h.length) '.' = '.' := by
        rw [← hlen]
        exact getD_concat_length _ _ _
      rw [hg]
  · intro hf
    unfold before_clause_number_period
    split
    · rename_i f l h1 h2
      unfold before_split_failed at hf
      rw [h1, h2] at hf
      simp only [Bool.not_eq_true', decide_eq_false_iff_not] at hf
      rw [if_neg hf]
    · rfl

/-- Witness for C8 amended at concrete inputs: the after-variant split of the
heading `"Residuals"` and the before-variant split of the anchor text `"Beta"`. -/
theorem C8_fallback_amended_witness :
    after_clause_split (['X', 'X', 'X', '.', ' '] ++ (("Residuals").data) ++ ['.']) =
      (['X', 'X', 'X', '.', ' '], (("Residuals").data), ['.', ' ']) ∧
    before_split_failed (("Beta").data) = true ∧
    before_clause_number_period (("Beta").data) =
      (['X', 'X', 'X', '.', ' '], ['.', ' ']) :=
  ⟨(C8_fallback_amended (("Residuals").data) (("Beta").data)).1,
   by decide,
   (C8_fallback_amended (("Residuals").data) (("Beta").data)).2 (by decide)⟩

/-! ### Claim C10 -/

/-- C10: in `insert_styled_numbered_clause_after_heading`, when no
clause-heading paragraph exists after the insertion point
(`find_next_heading_index` returns no match), the document's last paragraph is
used as the template — the new paragraph copies its style — and the new clause
paragraph is inserted immediately before that last paragraph (position
`d.length - 1`), which can lie outside the named section. -/
theorem C10_last_para_template (d : List Para) (h ht dt : List Char) (idx : Nat)
    (hfind : find_clause_index_by_heading d h = some idx)
    (hnone : find_next_heading_index d idx (detect_clause_heading_style d (some idx)) = none) :
    insert_styled_numbered_clause_after_heading d h ht dt none =
      Except.ok (d.take (d.length - 1) ++
        numbered_new_para d ht dt idx idx :: d.drop (d.length - 1)) ∧
    (numbered_new_para d ht dt idx idx).styleId =
      (d.getD (d.length - 1) blankPara).styleId ∧
    (numbered_new_para d ht dt idx idx).styleChainItalics =
      (d.getD (d.length - 1) blankPara).styleChainItalics := by
  have hti : numbered_template_index d idx (detect_clause_heading_style d (some idx)) =
      d.length - 1 := by
    simp only [numbered_template_index, hnone]
  refine ⟨?_, ?_, ?_⟩
  · simp only [insert_styled_numbered_clause_after_heading, hfind, hti]
  · rw [numbered_new_para_styleId, hti]
  · rw [numbered_new_para_styleChain, hti]

/-- Witness for C10: in `exDocNoHeading` the section `"Definitions."` is
followed only by plain body text, so no clause heading exists after the
insertion point and the new clause lands immediately before the last
paragraph. -/
theorem C10_last_para_template_witness :
    insert_styled_numbered_clause_after_heading exDocNoHeading
        (("Definitions.").data) (("Affiliate").data) (("means x").data) none =
      Except.ok (exDocNoHeading.take 1 ++
        numbered_new_para exDocNoHeading (("Affiliate").data) (("means x").data) 0 0 ::
        exDocNoHeading.drop 1) ∧
    (numbered_new_para exDocNoHeading (("Affiliate").data) (("means x").data) 0 0).styleId =
      (exDocNoHeading.getD 1 blankPara).styleId ∧
    (numbered_new_para exDocNoHeading (("Affiliate").data) (("means x").data) 0 0).styleChainItalics =
      (exDocNoHeading.getD 1 blankPara).styleChainItalics :=
  C10_last_para_template exDocNoHeading (("Definitions.").data)
    (("Affiliate").data) (("means x").data) 0 (by decide) (by decide)

/-! ### Claim C1, counterexample -/

/-- C1 counterexample: on a document containing the paragraph `"5. "` — whose
run-concatenated text matches `^(\d+|XXX)\.\s+` but whose *stripped* text
`"5."` does not — a successful `insert_styled_clause_after_clause` leaves that
heading untouched while renumbering the others from 1, so the leading numbers
of the top-level numbered clause headings are `5, 1, 2`: not the sequence
`1, 2, 3`. -/
theorem C1_counterexample :
    (insert_styled_clause_after_clause exDocFive (("Beta.").data) (("New").data)
      (("body").data)).toOption = some exResFive ∧
    headingNums exResFive = [some 5, some 1, some 2] ∧
    headingNums exResFive ≠
      List.map some (List.range' 1 (headingNums exResFive).length) := by decide

/-! ### Claim C2, counterexample -/

/-- C2 counterexample: with the numeric prefix split across two runs (`"1"` and
`". Alfa body"`), the matched span `"1. "` straddles the run boundary;
`renumber_clauses_preserve_formatting` rewrites only the first overlapping run
and `break`s, leaving the span's characters `". "` of the second run in place —
the paragraph text becomes `"1. . Alfa body"`, not the claimed `"1. Alfa body"`
in which exactly the span is replaced. -/
theorem C2_counterexample :
    (renumber_clauses_preserve_formatting exDocStraddle).map paraText =
      [("1. . Alfa body").data] ∧
    (("1. . Alfa body").data) ≠ (("1. Alfa body").data) := by decide

/-! ### Claim C7, counterexample -/

/-- C7 counterexample: for `index = -2` — not a valid sentence position, hence
"out of range" as the claim reads — `insert_sentence_in_clause` does not append:
Python `list.insert(-2, ...)` places the new sentence before the second-to-last
sentence, yielding `"Aa. Xx. Bb. Cc."` instead of the claimed appended
`"Aa. Bb. Cc. Xx."`. -/
theorem C7_counterexample :
    (insert_sentence_in_clause exDocSent (("aa").data) (("Xx.").data) (-2)).toOption.map
        (fun d => d.map paraText) = some [("Aa. Xx. Bb. Cc.").data] ∧
    (("Aa. Xx. Bb. Cc.").data) ≠ (("Aa. Bb. Cc. Xx.").data) := by decide

/-! ### Claim C9, counterexample -/

/-- C9 counterexample: the paragraph count does grow by exactly two, but in
`insert_styled_clause_before_clause` the empty separator is *not* adjacent to
the anchor clause: on a one-paragraph document the result is
`[separator, new clause, anchor]` — the anchor's only neighbour (index 1)
carries the new clause text `"1. New. body"`, and the empty paragraph sits two
positions before the anchor. -/
theorem C9_counterexample :
    (insert_styled_clause_before_clause exDocBeta (("Beta.").data) (("New").data)
      (("body").data)).toOption = some exResBetaBefore ∧
    exResBetaBefore.map paraText =
      [[], ("1. New. body").data, ("2. Beta. Body").data] ∧
    exResBetaBefore.length = exDocBeta.length + 2 ∧
    (exResBetaBefore.get? 1).map paraText ≠ some [] := by decide

/-! ### Claim C6 -/

/-- C6: `section_clause_headings_style` classifies each paragraph of the
section scope with `is_clause_heading` under the given coarse profile, tallies
quote/bold/italic/underline counts among the classified headings, and — when at
least one heading is classified — returns each `use_*` flag true exactly when
its count strictly exceeds half the classified total (`count > total / 2` in
integer division, which for naturals is strict majority); in particular, when
every classified heading is bold and quote-wrapped, `use_bold` and `use_quotes`
are both true. -/
theorem C6_majority_style (d : List Para) (i : Nat) (si : StyleInfo)
    (hne : (sectionScope d i).filter (fun p => is_clause_heading p si) ≠ []) :
    (section_clause_headings_style d i (some si) =
      { use_quotes := decide
          (((sectionScope d i).filter (fun p => is_clause_heading p si)).length / 2 <
           ((sectionScope d i).filter (fun p => is_clause_heading p si)).countP
             (fun p => has_quotes (pyStrip (paraText p)))),
        use_bold := decide
          (((sectionScope d i).filter (fun p => is_clause_heading p si)).length / 2 <
           ((sectionScope d i).filter (fun p => is_clause_heading p si)).countP anyBold),
        use_italic := decide
          (((sectionScope d i).filter (fun p => is_clause_heading p si)).length / 2 <
           ((sectionScope d i).filter (fun p => is_clause_heading p si)).countP para_has_italic),
        use_underline := decide
          (((sectionScope d i).filter (fun p => is_clause_heading p si)).length / 2 <
           ((sectionScope d i).filter (fun p => is_clause_heading p si)).countP anyUnderline) }) ∧
    ((∀ p ∈ (sectionScope d i).filter (fun p => is_clause_heading p si),
        anyBold p = true ∧ has_quotes (pyStrip (paraText p)) = true) →
      (section_clause_headings_style d i (some si)).use_bold = true ∧
      (section_clause_headings_style d i (some si)).use_quotes = true) := by
  set hs := (sectionScope d i).filter (fun p => is_clause_heading p si) with hhs
  have hlen : hs.length ≠ 0 := fun hz => hne (List.length_eq_zero.mp hz)
  have hmain : section_clause_headings_style d i (some si) =
      { use_quotes := decide (hs.length / 2 < hs.countP (fun p => has_quotes (pyStrip (paraText p)))),
        use_bold := decide (hs.length / 2 < hs.countP anyBold),
        use_italic := decide (hs.length / 2 < hs.countP para_has_italic),
        use_underline := decide (hs.length / 2 < hs.countP anyUnderline) } := by
    simp only [section_clause_headings_style, scs_tally_eq, Option.getD_some, ← hhs]
    rw [if_neg hlen]
  refine ⟨hmain, ?_⟩
  intro hall
  have hpos : 0 < hs.length := Nat.pos_of_ne_zero hlen
  have hdiv : hs.length / 2 < hs.length := Nat.div_lt_self hpos (by omega)
  constructor
  · rw [hmain]
    simp only [decide_eq_true_eq]
    have : hs.countP anyBold = hs.length :=
      List.countP_eq_length.mpr (fun p hp => (hall p hp).1)
    omega
  · rw [hmain]
    simp only [decide_eq_true_eq]
    have : hs.countP (fun p => has_quotes (pyStrip (paraText p))) = hs.length :=
      List.countP_eq_length.mpr (fun p hp => (hall p hp).2)
    omega

/-- Witness for C6 on a section whose two clause headings are uniformly bold
and quoted. -/
theorem C6_majority_style_witness :
    (section_clause_headings_style exDocSection 0
      (some (detect_clause_heading_style exDocSection (some 0)))).use_bold = true ∧
    (section_clause_headings_style exDocSection 0
      (some (detect_clause_heading_style exDocSection (some 0)))).use_quotes = true :=
  (C6_majority_style exDocSection 0 (detect_clause_heading_style exDocSection (some 0))
    (by decide)).2 (by decide)

/-! ### Renumbering theory: whitespace and digit prefixes -/

lemma wsPrefixLen_le (t : List Char) : wsPrefixLen t ≤ t.length := by
  induction t with
  | nil => simp [wsPrefixLen]
  | cons c cs ih =>
    by_cases h : isPySpace c <;> simp [wsPrefixLen, h] <;> omega

lemma wsPrefixLen_drop_head : ∀ (t : List Char) (c : Char),
    (t.drop (wsPrefixLen t)).head? = some c → isPySpace c = false
  | [], c, h => by simp at h
  | x :: xs, c, h => by
    by_cases hx : isPySpace x
    · exact wsPrefixLen_drop_head xs c (by simpa [wsPrefixLen, hx] using h)
    · have h0 : wsPrefixLen (x :: xs) = 0 := by simp [wsPrefixLen, hx]
      rw [h0] at h
      simp only [List.drop_zero, List.head?_cons, Option.some.injEq] at h
      rw [← h]
      simpa using hx

lemma wsPrefixLen_take_ws : ∀ (t : List Char), ∀ c ∈ t.take (wsPrefixLen t),
    isPySpace c = true
  | [], c, h => by simp at h
  | x :: xs, c, h => by
    by_cases hx : isPySpace x
    · simp only [wsPrefixLen, hx, if_true, List.take_succ_cons, List.mem_cons] at h
      rcases h with h | h
      · rw [h]; exact hx
      · exact wsPrefixLen_take_ws xs c h
    · simp [wsPrefixLen, hx] at h

lemma wsPrefixLen_append_of_all (a b : List Char) (h : ∀ c ∈ a, isPySpace c = true) :
    wsPrefixLen (a ++ b) = a.length + wsPrefixLen b := by
  induction a with
  | nil => simp
  | cons x xs ih =>
    have hx : isPySpace x = true := h x (by simp)
    simp only [List.cons_append, wsPrefixLen, hx, if_true, List.length_cons,
      List.append_eq]
    rw [ih (fun c hc => h c (by simp [hc]))]
    omega

lemma wsPrefixLen_le_append (a b : List Char) :
    wsPrefixLen a ≤ wsPrefixLen (a ++ b) := by
  induction a with
  | nil => simp [wsPrefixLen]
  | cons x xs ih =>
    by_cases hx : isPySpace x <;> simp [wsPrefixLen, hx] <;> omega

lemma wsPrefixLen_eq_zero_of_head (t : List Char) (c : Char) (h : t.head? = some c)
    (hc : isPySpace c = false) : wsPrefixLen t = 0 := by
  cases t with
  | nil => rfl
  | cons x xs =>
    simp only [List.head?_cons, Option.some.injEq] at h
    rw [← h] at hc
    simp [wsPrefixLen, hc]

lemma wsPrefixLen_eq_zero_iff (t : List Char) :
    wsPrefixLen t = 0 ↔ (t = [] ∨ ∃ c, t.head? = some c ∧ isPySpace c = false) := by
  cases t with
  | nil => simp [wsPrefixLen]
  | cons x xs =>
    by_cases hx : isPySpace x <;> simp [wsPrefixLen, hx]

lemma digitPrefixLen_le (t : List Char) : digitPrefixLen t ≤ t.length := by
  induction t with
  | nil => simp [digitPrefixLen]
  | cons c cs ih =>
    by_cases h : c.isDigit <;> simp [digitPrefixLen, h] <;> omega

lemma digitPrefixLen_append_of_all (a : List Char) (c : Char) (b : List Char)
    (ha : ∀ x ∈ a, x.isDigit = true) (hc : c.isDigit = false) :
    digitPrefixLen (a ++ c :: b) = a.length := by
  induction a with
  | nil => simp [digitPrefixLen, hc]
  | cons x xs ih =>
    have hx : x.isDigit = true := ha x (by simp)
    simp only [List.cons_append, digitPrefixLen, hx, if_true, List.length_cons,
      List.append_eq]
    rw [ih (fun y hy => ha y (by simp [hy]))]

lemma digitPrefixLen_take_digits : ∀ (t : List Char), ∀ c ∈ t.take (digitPrefixLen t),
    c.isDigit = true
  | [], c, h => by simp at h
  | x :: xs, c, h => by
    by_cases hx : x.isDigit
    · simp only [digitPrefixLen, hx, if_true, List.take_succ_cons, List.mem_cons] at h
      rcases h with h | h
      · rw [h]; exact hx
      · exact digitPrefixLen_take_digits xs c h
    · simp [digitPrefixLen, hx] at h

lemma digitPrefixLen_append_of_lt (a b : List Char) (h : digitPrefixLen a < a.length) :
    digitPrefixLen (a ++ b) = digitPrefixLen a := by
  induction a with
  | nil => simp at h
  | cons x xs ih =>
    by_cases hx : x.isDigit
    · simp only [digitPrefixLen, hx, if_true, List.length_cons] at h ⊢
      simp only [List.cons_append, digitPrefixLen, hx, if_true, List.append_eq]
      rw [ih (by omega)]
    · have h1 : digitPrefixLen (x :: (xs ++ b)) = 0 := by simp [digitPrefixLen, hx]
      have h2 : digitPrefixLen (x :: xs) = 0 := by simp [digitPrefixLen, hx]
      rw [List.cons_append, h1, h2]

lemma digitPrefixLen_head_digit (t : List Char) (h : 0 < digitPrefixLen t) :
    ∃ c, t.head? = some c ∧ c.isDigit = true := by
  cases t with
  | nil => simp [digitPrefixLen] at h
  | cons x xs =>
    by_cases hx : x.isDigit
    · exact ⟨x, rfl, hx⟩
    · simp [digitPrefixLen, hx] at h

lemma digitPrefixLen_eq_zero_of_head (t : List Char) (c : Char) (h : t.head? = some c)
    (hc : c.isDigit = false) : digitPrefixLen t = 0 := by
  cases t with
  | nil => rfl
  | cons x xs =>
    simp only [List.head?_cons, Option.some.injEq] at h
    rw [← h] at hc
    simp [digitPrefixLen, hc]

/-! ### Renumbering theory: decimal printing and parsing -/

lemma natToCharsAux_fuel : ∀ (f₁ : Nat) (f₂ n : Nat), n < f₁ → n < f₂ →
    natToCharsAux f₁ n = natToCharsAux f₂ n := by
  intro f₁
  induction f₁ with
  | zero => intro f₂ n h; omega
  | succ g ih =>
    intro f₂ n h1 h2
    cases f₂ with
    | zero => omega
    | succ g₂ =>
      simp only [natToCharsAux]
      by_cases h10 : n < 10
      · simp [h10]
      · rw [if_neg h10, if_neg h10]
        have hd : n / 10 < n := Nat.div_lt_self (by omega) (by omega)
        rw [ih g₂ (n / 10) (by omega) (by omega)]

lemma natToChars_small (n : Nat) (h : n < 10) : natToChars n = [Nat.digitChar n] := by
  unfold natToChars natToCharsAux
  rw [if_pos h]

lemma natToChars_step (n : Nat) (h : 10 ≤ n) :
    natToChars n = natToChars (n / 10) ++ [Nat.digitChar (n % 10)] := by
  unfold natToChars
  conv_lhs => rw [natToCharsAux]
  rw [if_neg (by omega)]
  have hd : n / 10 < n := Nat.div_lt_self (by omega) (by omega)
  rw [natToCharsAux_fuel n (n / 10 + 1) (n / 10) (by omega) (by omega)]

lemma digitChar_isDigit (k : Nat) (h : k < 10) : (Nat.digitChar k).isDigit = true := by
  interval_cases k <;> decide

lemma digitChar_not_dot (k : Nat) (h : k < 10) : (Nat.digitChar k = '.') = False := by
  interval_cases k <;> simp <;> decide

lemma digitChar_val (k : Nat) (h : k < 10) : (Nat.digitChar k).toNat - 48 = k := by
  interval_cases k <;> decide

lemma natToChars_ne_nil (n : Nat) : natToChars n ≠ [] := by
  by_cases h : n < 10
  · rw [natToChars_small n h]; simp
  · rw [natToChars_step n (by omega)]; simp

lemma natToChars_digits (n : Nat) : ∀ c ∈ natToChars n, c.isDigit = true := by
  induction n using Nat.strong_induction_on with
  | _ n ih =>
    by_cases h : n < 10
    · rw [natToChars_small n h]
      intro c hc
      simp only [List.mem_singleton] at hc
      rw [hc]; exact digitChar_isDigit n h
    · rw [natToChars_step n (by omega)]
      intro c hc
      rcases List.mem_append.mp hc with hc | hc
      · exact ih (n / 10) (Nat.div_lt_self (by omega) (by omega)) c hc
      · simp only [List.mem_singleton] at hc
        rw [hc]
        exact digitChar_isDigit (n % 10) (Nat.mod_lt n (by omega))

lemma natToChars_foldl (n : Nat) : ∀ acc : Nat,
    (natToChars n).foldl (fun a c => 10 * a + (c.toNat - 48)) acc =
      acc * 10 ^ (natToChars n).length + n := by
  induction n using Nat.strong_induction_on with
  | _ n ih =>
    intro acc
    by_cases h : n < 10
    · rw [natToChars_small n h]
      simp [List.foldl, digitChar_val n h]
      ring
    · rw [natToChars_step n (by omega)]
      rw [List.foldl_append]
      rw [ih (n / 10) (Nat.div_lt_self (by omega) (by omega)) acc]
      simp only [List.foldl, List.length_append, List.length_singleton]
      rw [digitChar_val (n % 10) (Nat.mod_lt n (by omega))]
      have : n = 10 * (n / 10) + n % 10 := (Nat.div_add_mod n 10).symm ▸ by omega
      ring_nf
      omega

/-! ### Renumbering theory: strip lemmas -/

lemma dropWhile_append_of_ne_nil {p : Char → Bool} (a b : List Char)
    (h : a.dropWhile p ≠ []) : (a ++ b).dropWhile p = a.dropWhile p ++ b := by
  rw [List.dropWhile_append, if_neg]
  simpa using h

lemma dropWhile_append_of_all {p : Char → Bool} (a b : List Char)
    (h : ∀ c ∈ a, p c = true) : (a ++ b).dropWhile p = b.dropWhile p := by
  rw [List.dropWhile_append, if_pos]
  simp only [List.isEmpty_iff]
  exact List.dropWhile_eq_nil_iff.mpr h

lemma pyRStrip_append_right (u v : List Char) (c : Char) (hc : c ∈ v)
    (hns : isPySpace c = false) : pyRStrip (u ++ v) = u ++ pyRStrip v := by
  unfold pyRStrip
  rw [List.reverse_append]
  rw [dropWhile_append_of_ne_nil]
  · rw [List.reverse_append, List.reverse_reverse]
  · intro hnil
    have : c ∈ v.reverse.dropWhile isPySpace := by
      have hall := List.dropWhile_eq_nil_iff.mp hnil
      exact absurd (hall c (by simpa using hc)) (by simp [hns])
    rw [hnil] at this
    simp at this

lemma pyRStrip_append_ws (u v : List Char) (h : ∀ c ∈ v, isPySpace c = true) :
    pyRStrip (u ++ v) = pyRStrip u := by
  unfold pyRStrip
  rw [List.reverse_append, dropWhile_append_of_all]
  intro c hc
  exact h c (by simpa using hc)

lemma pyRStrip_decomp (t : List Char) :
    ∃ v, t = pyRStrip t ++ v ∧ ∀ c ∈ v, isPySpace c = true := by
  refine ⟨(t.reverse.takeWhile isPySpace).reverse, ?_, ?_⟩
  · unfold pyRStrip
    conv_lhs => rw [← t.reverse_reverse,
      ← List.takeWhile_append_dropWhile isPySpace t.reverse]
    rw [List.reverse_append]
  · intro c hc
    exact List.mem_takeWhile_imp (by simpa using hc)

lemma pyLStrip_eq_self (t : List Char) (c : Char) (h : t.head? = some c)
    (hc : isPySpace c = false) : pyLStrip t = t := by
  cases t with
  | nil => rfl
  | cons x xs =>
    simp only [List.head?_cons, Option.some.injEq] at h
    rw [← h] at hc
    simp [pyLStrip, List.dropWhile_cons, hc]

lemma pyStrip_eq_rstrip (t : List Char) (c : Char) (h : t.head? = some c)
    (hc : isPySpace c = false) : pyStrip t = pyRStrip t := by
  unfold pyStrip
  rw [pyLStrip_eq_self t c h hc]

/-! ### Renumbering theory: the clause-number pattern -/

lemma isPySpace_not_digit (c : Char) (h : isPySpace c = true) : c.isDigit = false := by
  simp only [isPySpace, Bool.or_eq_true, decide_eq_true_eq] at h
  rcases h with ((((h | h) | h) | h) | h) | h <;> subst h <;> decide

lemma isDigit_not_space (c : Char) (h : c.isDigit = true) : isPySpace c = false := by
  cases hps : isPySpace c
  · rfl
  · rw [isPySpace_not_digit c hps] at h
    cases h

lemma take3_XXX_head (t : List Char) (h : t.take 3 = ['X', 'X', 'X']) :
    t.head? = some 'X' := by
  cases t with
  | nil => simp at h
  | cons x xs =>
    simp only [List.take_succ_cons, List.cons.injEq] at h
    rw [h.1]
    rfl

lemma pyMatchAt_some_iff (t : List Char) (k e : Nat) :
    pyMatchAt t k = some e ↔
      ((t.drop k).head? = some '.' ∧ 0 < wsPrefixLen (t.drop (k + 1)) ∧
        e = k + 1 + wsPrefixLen (t.drop (k + 1))) := by
  constructor
  · intro h
    unfold pyMatchAt at h
    split at h
    · rename_i hc
      refine ⟨hc.1, hc.2, ?_⟩
      simpa using h.symm
    · exact absurd h (by simp)
  · rintro ⟨h1, h2, rfl⟩
    unfold pyMatchAt
    rw [if_pos ⟨h1, h2⟩]

lemma pyMatch_some_inv (t : List Char) (e : Nat) (h : pyMatch t = some e) :
    ∃ k, pyMatchAt t k = some e ∧
      ((0 < digitPrefixLen t ∧ k = digitPrefixLen t) ∨
       (digitPrefixLen t = 0 ∧ t.take 3 = ['X', 'X', 'X'] ∧ k = 3)) := by
  unfold pyMatch at h
  by_cases h1 : 0 < digitPrefixLen t
  · rw [if_pos h1] at h
    exact ⟨_, h, Or.inl ⟨h1, rfl⟩⟩
  · rw [if_neg h1] at h
    by_cases h2 : t.take 3 = ['X', 'X', 'X']
    · rw [if_pos h2] at h
      exact ⟨3, h, Or.inr ⟨by omega, h2, rfl⟩⟩
    · rw [if_neg h2] at h
      exact absurd h (by simp)

lemma pyMatch_head_nonspace (t : List Char) (e : Nat) (h : pyMatch t = some e) :
    ∃ c, t.head? = some c ∧ isPySpace c = false := by
  rcases pyMatch_some_inv t e h with ⟨k, _, hk | hk⟩
  · rcases digitPrefixLen_head_digit t hk.1 with ⟨c, hc, hd⟩
    exact ⟨c, hc, isDigit_not_space c hd⟩
  · exact ⟨'X', take3_XXX_head t hk.2.1, by decide⟩

lemma pyMatch_le_length (t : List Char) (e : Nat) (h : pyMatch t = some e) :
    e ≤ t.length := by
  rcases pyMatch_some_inv t e h with ⟨k, hat, _⟩
  rcases (pyMatchAt_some_iff t k e).mp hat with ⟨h1, _, he⟩
  have hk : k < t.length := by
    by_contra hk
    rw [List.drop_eq_nil_iff.mpr (by omega)] at h1
    simp at h1
  have hw : wsPrefixLen (t.drop (k + 1)) ≤ t.length - (k + 1) := by
    have := wsPrefixLen_le (t.drop (k + 1))
    rwa [List.length_drop] at this
  omega

lemma pyMatch_drop_head (t : List Char) (e : Nat) (h : pyMatch t = some e) :
    ∀ c, (t.drop e).head? = some c → isPySpace c = false := by
  rcases pyMatch_some_inv t e h with ⟨k, hat, _⟩
  rcases (pyMatchAt_some_iff t k e).mp hat with ⟨_, _, he⟩
  intro c hc
  apply wsPrefixLen_drop_head (t.drop (k + 1)) c
  rw [List.drop_drop]
  rw [he] at hc
  exact hc

lemma pyMatch_digits_prefix (dig D : List Char) (hne : dig ≠ [])
    (hdig : ∀ c ∈ dig, c.isDigit = true) :
    pyMatch (dig ++ '.' :: ' ' :: D) =
      some (dig.length + 1 + (wsPrefixLen D + 1)) := by
  have hdpl : digitPrefixLen (dig ++ '.' :: ' ' :: D) = dig.length :=
    digitPrefixLen_append_of_all dig '.' (' ' :: D) hdig (by decide)
  have hpos : 0 < dig.length := List.length_pos.mpr hne
  unfold pyMatch
  rw [hdpl, if_pos hpos]
  unfold pyMatchAt
  have hdrop : (dig ++ '.' :: ' ' :: D).drop dig.length = '.' :: ' ' :: D :=
    List.drop_left dig _
  have hdrop1 : (dig ++ '.' :: ' ' :: D).drop (dig.length + 1) = ' ' :: D := by
    have := List.drop_drop 1 dig.length (dig ++ '.' :: ' ' :: D)
    rw [hdrop] at this
    rw [← this]
    rfl
  rw [hdrop, hdrop1]
  have hws : wsPrefixLen (' ' :: D) = wsPrefixLen D + 1 := by
    simp [wsPrefixLen, show isPySpace ' ' = true by decide]
  rw [hws, if_pos ⟨rfl, by omega⟩]

lemma leadingNumOf_natToChars (n : Nat) (rest : List Char) :
    leadingNumOf (natToChars n ++ '.' :: rest) = some n := by
  have hdpl : digitPrefixLen (natToChars n ++ '.' :: rest) = (natToChars n).length :=
    digitPrefixLen_append_of_all _ '.' rest (natToChars_digits n) (by decide)
  have hpos : 0 < (natToChars n).length := List.length_pos.mpr (natToChars_ne_nil n)
  unfold leadingNumOf
  rw [hdpl, if_pos hpos]
  unfold parseDigitVal
  rw [hdpl, List.take_left]
  rw [natToChars_foldl n 0]
  simp

/-! ### Renumbering theory: the run-splice characterization -/

lemma renumberRunsGo_spec (n e : Nat) (r0 : Run) (rest : List Run)
    (h0 : r0.text ≠ []) (he : 0 < e) :
    ∀ pre : List Run, (∀ r ∈ pre, r.text = []) →
      renumberRunsGo n e 0 (pre ++ r0 :: rest) =
        pre ++ splicedRun n e r0 :: rest := by
  intro pre
  induction pre with
  | nil =>
    intro _
    show renumberRunsGo n e 0 (r0 :: rest) = _
    rw [renumberRunsGo]
    rw [if_pos ⟨he, by simpa using List.length_pos.mpr h0⟩]
    simp [splicedRun]
  | cons r pre ih =>
    intro hpre
    have hr : r.text = [] := hpre r (by simp)
    show renumberRunsGo n e 0 ((r :: pre) ++ r0 :: rest) = _
    simp only [List.cons_append]
    rw [renumberRunsGo]
    rw [if_neg (by simp [hr])]
    rw [hr]
    simp only [List.length_nil, Nat.add_zero]
    rw [ih (fun x hx => hpre x (by simp [hx]))]

lemma runs_decomp (runs : List Run) (h : (runs.map Run.text).flatten ≠ []) :
    ∃ pre r0 rest, runs = pre ++ r0 :: rest ∧
      (∀ r ∈ pre, r.text = []) ∧ r0.text ≠ [] := by
  induction runs with
  | nil => simp at h
  | cons r rs ih =>
    by_cases hr : r.text = []
    · have h' : (rs.map Run.text).flatten ≠ [] := by
        simpa [hr] using h
      rcases ih h' with ⟨pre, r0, rest, h1, h2, h3⟩
      refine ⟨r :: pre, r0, rest, by rw [h1, List.cons_append], ?_, h3⟩
      intro x hx
      rcases List.mem_cons.mp hx with hx | hx
      · rw [hx]; exact hr
      · exact h2 x hx
    · exact ⟨[], r, rs, rfl, by simp, hr⟩

lemma flatten_empties (pre : List Run) (h : ∀ r ∈ pre, r.text = []) :
    ((pre.map Run.text).flatten : List Char) = [] := by
  induction pre with
  | nil => rfl
  | cons r rs ih =>
    simp only [List.map_cons, List.flatten_cons, h r (by simp), List.nil_append]
    exact ih (fun x hx => h x (by simp [hx]))

lemma paraText_decomp (p : Para) (pre : List Run) (r0 : Run) (rest : List Run)
    (hdec : p.runs = pre ++ r0 :: rest) (hpre : ∀ r ∈ pre, r.text = []) :
    paraText p = r0.text ++ (rest.map Run.text).flatten := by
  unfold paraText
  rw [hdec]
  rw [List.map_append, List.flatten_append, flatten_empties pre hpre]
  simp

/-- The paragraph-level effect of one renumbering step: the matched paragraph's
first non-empty run gets the new number spliced in (with the span remainder of
that run dropped), and the paragraph text takes the form
`str(n) ++ ". " ++ drop`. -/
lemma renumberPara_spec (n : Nat) (p : Para) (e : Nat)
    (hm : pyMatch (paraText p) = some e)
    (pre : List Run) (r0 : Run) (rest : List Run)
    (hdec : p.runs = pre ++ r0 :: rest) (hpre : ∀ r ∈ pre, r.text = [])
    (h0 : r0.text ≠ []) :
    renumberPara n p = { p with runs := pre ++ splicedRun n e r0 :: rest } ∧
    paraText (renumberPara n p) =
      natToChars n ++ '.' :: ' ' :: (paraText p).drop (min r0.text.length e) := by
  have he : 0 < e := by
    rcases pyMatch_some_inv _ _ hm with ⟨k, hat, _⟩
    rcases (pyMatchAt_some_iff _ _ _).mp hat with ⟨_, _, hke⟩
    omega
  have hmain : renumberPara n p = { p with runs := pre ++ splicedRun n e r0 :: rest } := by
    unfold renumberPara
    rw [hm, hdec]
    dsimp only
    rw [renumberRunsGo_spec n e r0 rest h0 he pre hpre]
  refine ⟨hmain, ?_⟩
  rw [hmain]
  rw [paraText_decomp _ pre _ rest rfl hpre]
  rw [paraText_decomp p pre r0 rest hdec hpre]
  have hmle : min r0.text.length e ≤ r0.text.length := Nat.min_le_left _ _
  rw [List.drop_append_eq_append_drop, Nat.sub_eq_zero_of_le hmle, List.drop_zero]
  simp [splicedRun]

/-- After a splice, the new text still matches, with known end offset. -/
lemma renumberPara_text_match (n : Nat) (D : List Char) :
    pyMatch (natToChars n ++ '.' :: ' ' :: D) =
      some ((natToChars n).length + 1 + (wsPrefixLen D + 1)) :=
  pyMatch_digits_prefix (natToChars n) D (natToChars_ne_nil n) (natToChars_digits n)

/-! ### Renumbering theory: strip-match versus match -/

lemma pyMatch_eq_At_digits (t : List Char) (h : 0 < digitPrefixLen t) :
    pyMatch t = pyMatchAt t (digitPrefixLen t) := by
  unfold pyMatch
  rw [if_pos h]

lemma pyMatch_eq_At_XXX (t : List Char) (h0 : digitPrefixLen t = 0)
    (h3 : t.take 3 = ['X', 'X', 'X']) : pyMatch t = pyMatchAt t 3 := by
  unfold pyMatch
  rw [if_neg (by omega), if_pos h3]

lemma pyMatchAt_construct (u w v : List Char) (k : Nat) (hk : u.length = k)
    (hw : ∀ c ∈ w, isPySpace c = true) (hwpos : 0 < w.length + wsPrefixLen v) :
    pyMatchAt (u ++ '.' :: (w ++ v)) k = some (k + 1 + (w.length + wsPrefixLen v)) := by
  have hd : (u ++ '.' :: (w ++ v)).drop k = '.' :: (w ++ v) := by
    rw [← hk]
    exact List.drop_left u _
  have hd1 : (u ++ '.' :: (w ++ v)).drop (k + 1) = w ++ v := by
    have := List.drop_drop 1 k (u ++ '.' :: (w ++ v))
    rw [hd] at this
    rw [← this]
    rfl
  unfold pyMatchAt
  rw [hd, hd1, wsPrefixLen_append_of_all w v hw]
  rw [if_pos ⟨rfl, hwpos⟩]

lemma take_succ_dot (t : List Char) (k : Nat) (hdot : (t.drop k).head? = some '.') :
    t.take (k + 1) = t.take k ++ ['.'] := by
  rw [List.head?_drop] at hdot
  rw [List.take_succ, hdot]
  rfl

lemma take_k_lt_length (t : List Char) (k : Nat) (hdot : (t.drop k).head? = some '.') :
    k < t.length := by
  by_contra hk
  rw [List.drop_eq_nil_iff.mpr (by omega)] at hdot
  simp at hdot

lemma pyRStrip_singleton_dot : pyRStrip ['.'] = ['.'] := by decide

/-- If the text matches but everything after the span is whitespace, the
stripped text does not match (the required `\s+` is stripped away). -/
lemma strip_match_drop_nonspace (t : List Char) (e : Nat)
    (hm : pyMatch t = some e)
    (hs : (pyMatch (pyStrip t)).isSome) :
    ∃ c ∈ t.drop e, isPySpace c = false := by
  by_contra hall
  push_neg at hall
  have hallws : ∀ c ∈ t.drop e, isPySpace c = true := by
    intro c hc
    have := hall c hc
    cases h : isPySpace c
    · exact absurd h this
    · rfl
  rcases pyMatch_head_nonspace t e hm with ⟨c0, hc0, hns0⟩
  rw [pyStrip_eq_rstrip t c0 hc0 hns0] at hs
  rcases pyMatch_some_inv t e hm with ⟨k, hat, hcase⟩
  rcases (pyMatchAt_some_iff t k e).mp hat with ⟨hdot, hwpos, he⟩
  have h1 : pyRStrip t = pyRStrip (t.take e) := by
    conv_lhs => rw [← List.take_append_drop e t]
    exact pyRStrip_append_ws _ _ hallws
  have hsplit : t.take e = t.take (k + 1) ++ (t.drop (k + 1)).take (wsPrefixLen (t.drop (k + 1))) := by
    rw [he]
    exact List.take_add t (k + 1) _
  have h2 : pyRStrip (t.take e) = pyRStrip (t.take (k + 1)) := by
    rw [hsplit]
    exact pyRStrip_append_ws _ _ (wsPrefixLen_take_ws _)
  have h3 : t.take (k + 1) = t.take k ++ ['.'] := take_succ_dot t k hdot
  have h4 : pyRStrip (t.take (k + 1)) = t.take k ++ ['.'] := by
    rw [h3, pyRStrip_append_right _ ['.'] '.' (by simp) (by decide), pyRStrip_singleton_dot]
  have hklt : k < t.length := take_k_lt_length t k hdot
  have hlen : (t.take k).length = k := List.length_take_of_le (by omega)
  have hu : pyRStrip t = t.take k ++ ['.'] := by rw [h1, h2, h4]
  rw [hu] at hs
  have hdropk : (t.take k ++ ['.']).drop k = ['.'] := by
    have h := List.drop_left (t.take k) ['.']
    rwa [hlen] at h
  have hdropk1 : (t.take k ++ ['.']).drop (k + 1) = [] := by
    have := List.drop_drop 1 k (t.take k ++ ['.'])
    rw [hdropk] at this
    rw [← this]
    rfl
  have hAtnone : pyMatchAt (t.take k ++ ['.']) k = none := by
    unfold pyMatchAt
    rw [hdropk1]
    rw [if_neg]
    rintro ⟨-, hw⟩
    simp [wsPrefixLen] at hw
  rcases hcase with ⟨hk0, hkd⟩ | ⟨hk0, hk3, hkk⟩
  · have hdpl : digitPrefixLen (t.take k ++ ['.']) = k := by
      have h5 := digitPrefixLen_append_of_all (t.take k) '.' [] ?_ (by decide)
      · rwa [hlen] at h5
      · intro x hx
        rw [hkd] at hx
        exact digitPrefixLen_take_digits t x hx
    rw [pyMatch_eq_At_digits _ (by omega), hdpl, hAtnone] at hs
    simp at hs
  · subst hkk
    have hhead : (t.take 3 ++ ['.']).head? = some 'X' := by
      rw [hk3]
      rfl
    have hdpl : digitPrefixLen (t.take 3 ++ ['.']) = 0 :=
      digitPrefixLen_eq_zero_of_head _ 'X' hhead (by decide)
    have htake3 : (t.take 3 ++ ['.']).take 3 = ['X', 'X', 'X'] := by
      rw [hk3]
      rfl
    rw [pyMatch_eq_At_XXX _ hdpl htake3, hAtnone] at hs
    simp at hs

/-- Conversely: if the text matches and something non-whitespace survives after
the span, the stripped text matches as well. -/
lemma match_strip_of_drop_nonspace (t : List Char) (e : Nat) (c0 : Char)
    (hhead : t.head? = some c0) (hns : isPySpace c0 = false)
    (hm : pyMatch t = some e)
    (hne : ∃ c ∈ t.drop e, isPySpace c = false) :
    (pyMatch (pyStrip t)).isSome := by
  rcases hne with ⟨cw, hcw, hcwns⟩
  rw [pyStrip_eq_rstrip t c0 hhead hns]
  have hu : pyRStrip t = t.take e ++ pyRStrip (t.drop e) := by
    conv_lhs => rw [← List.take_append_drop e t]
    exact pyRStrip_append_right _ _ cw hcw hcwns
  rw [hu]
  rcases pyMatch_some_inv t e hm with ⟨k, hat, hcase⟩
  rcases (pyMatchAt_some_iff t k e).mp hat with ⟨hdot, hwpos, he⟩
  have hklt : k < t.length := take_k_lt_length t k hdot
  have hlenk : (t.take k).length = k := List.length_take_of_le (by omega)
  have hw : wsPrefixLen (t.drop (k + 1)) ≤ (t.drop (k + 1)).length := wsPrefixLen_le _
  have hwlen : ((t.drop (k + 1)).take (wsPrefixLen (t.drop (k + 1)))).length =
      wsPrefixLen (t.drop (k + 1)) := List.length_take_of_le hw
  have hT : t.take e ++ pyRStrip (t.drop e) =
      t.take k ++ '.' :: ((t.drop (k + 1)).take (wsPrefixLen (t.drop (k + 1))) ++
        pyRStrip (t.drop e)) := by
    rw [he, List.take_add, take_succ_dot t k hdot]
    simp
  rw [hT]
  have hAt := pyMatchAt_construct (t.take k)
    ((t.drop (k + 1)).take (wsPrefixLen (t.drop (k + 1)))) (pyRStrip (t.drop e)) k
    hlenk (wsPrefixLen_take_ws _) (by rw [hwlen]; omega)
  rcases hcase with ⟨hk0, hkd⟩ | ⟨hk0, hk3, hkk⟩
  · have hdpl : digitPrefixLen (t.take k ++ '.' ::
        ((t.drop (k + 1)).take (wsPrefixLen (t.drop (k + 1))) ++ pyRStrip (t.drop e))) = k := by
      have h5 := digitPrefixLen_append_of_all (t.take k) '.'
        ((t.drop (k + 1)).take (wsPrefixLen (t.drop (k + 1))) ++ pyRStrip (t.drop e)) ?_ (by decide)
      · rwa [hlenk] at h5
      · intro x hx
        rw [hkd] at hx
        exact digitPrefixLen_take_digits t x hx
    rw [pyMatch_eq_At_digits _ (by rw [hdpl]; omega), hdpl, hAt]
    rfl
  · subst hkk
    have hk3' : t.take 3 ≠ [] := by rw [hk3]; simp
    have hhead3 : (t.take 3 ++ '.' :: ((t.drop 4).take (wsPrefixLen (t.drop 4)) ++
        pyRStrip (t.drop e))).head? = some 'X' := by
      rw [hk3]
      rfl
    have hdpl : digitPrefixLen (t.take 3 ++ '.' :: ((t.drop 4).take (wsPrefixLen (t.drop 4)) ++
        pyRStrip (t.drop e))) = 0 :=
      digitPrefixLen_eq_zero_of_head _ 'X' hhead3 (by decide)
    have htake3 : (t.take 3 ++ '.' :: ((t.drop 4).take (wsPrefixLen (t.drop 4)) ++
        pyRStrip (t.drop e))).take 3 = ['X', 'X', 'X'] := by
      rw [hk3]
      rfl
    rw [pyMatch_eq_At_XXX _ hdpl htake3, hAt]
    rfl

/-! ### Renumbering theory: a second pass is the identity -/

lemma pyMatch_nil : pyMatch [] = none := by decide

lemma wsPrefixLen_of_drop_match (t : List Char) (e : Nat) (hm : pyMatch t = some e) :
    wsPrefixLen (t.drop e) = 0 := by
  rcases h : (t.drop e).head? with _ | c
  · rw [List.head?_eq_none_iff] at h
    rw [h]
    rfl
  · exact wsPrefixLen_eq_zero_of_head _ c h (pyMatch_drop_head t e hm c h)

lemma nonspace_after_ws (D : List Char) (c : Char) (hc : c ∈ D)
    (hns : isPySpace c = false) :
    ∃ c', c' ∈ D.drop (wsPrefixLen D) ∧ isPySpace c' = false := by
  have hne : D.drop (wsPrefixLen D) ≠ [] := by
    intro h
    have hD : D = D.take (wsPrefixLen D) := by
      conv_lhs => rw [← List.take_append_drop (wsPrefixLen D) D]
      rw [h, List.append_nil]
    rw [hD] at hc
    have hws := wsPrefixLen_take_ws D c hc
    rw [hws] at hns
    cases hns
  refine ⟨(D.drop (wsPrefixLen D)).head hne, List.head_mem hne, ?_⟩
  exact wsPrefixLen_drop_head D _ (List.head?_eq_head hne)

lemma drop_num_prefix (n : Nat) (D : List Char) :
    (natToChars n ++ '.' :: ' ' :: D).drop
      ((natToChars n).length + 1 + (wsPrefixLen D + 1)) = D.drop (wsPrefixLen D) := by
  rw [List.drop_append_eq_append_drop]
  rw [List.drop_eq_nil_iff.mpr (by omega)]
  simp only [List.nil_append]
  have h2 : (natToChars n).length + 1 + (wsPrefixLen D + 1) - (natToChars n).length =
      wsPrefixLen D + 1 + 1 := by omega
  rw [h2]
  rw [List.drop_succ_cons, List.drop_succ_cons]

lemma drop_num_prefix2 (n : Nat) (tail : List Char) :
    (natToChars n ++ '.' :: ' ' :: tail).drop ((natToChars n).length + 2) = tail := by
  rw [List.drop_append_eq_append_drop]
  rw [List.drop_eq_nil_iff.mpr (by omega)]
  simp only [List.nil_append]
  have h2 : (natToChars n).length + 2 - (natToChars n).length = 2 := by omega
  rw [h2]
  rfl

lemma spliced_text_drop (n e w : Nat) (tx : List Char) (hA : e ≤ tx.length → w = 0) :
    (natToChars n ++ '.' :: ' ' :: tx.drop (min tx.length e)).drop
      (min (natToChars n ++ '.' :: ' ' :: tx.drop (min tx.length e)).length
        ((natToChars n).length + 1 + (w + 1))) = tx.drop (min tx.length e) := by
  by_cases hcase : e ≤ tx.length
  · rw [hA hcase]
    have hlen : (natToChars n ++ '.' :: ' ' :: tx.drop (min tx.length e)).length =
        (natToChars n).length + 2 + (tx.drop (min tx.length e)).length := by
      simp only [List.length_append, List.length_cons]
      omega
    rw [hlen, Nat.min_eq_right (by omega)]
    have h1 : (natToChars n).length + 1 + (0 + 1) = (natToChars n).length + 2 := by omega
    rw [h1]
    exact drop_num_prefix2 n _
  · have htail : tx.drop (min tx.length e) = [] := by
      rw [Nat.min_eq_left (by omega)]
      exact List.drop_length tx
    rw [htail]
    have hlen : (natToChars n ++ '.' :: ' ' :: ([] : List Char)).length =
        (natToChars n).length + 2 := by
      simp
    rw [hlen, Nat.min_eq_left (by omega)]
    exact drop_num_prefix2 n ([] : List Char)

lemma splicedRun_idem (n e w : Nat) (r0 : Run) (hA : e ≤ r0.text.length → w = 0) :
    splicedRun n ((natToChars n).length + 1 + (w + 1)) (splicedRun n e r0) =
      splicedRun n e r0 := by
  cases r0 with
  | mk tx b i u fn fs fc ac sfi =>
    unfold splicedRun
    simp only
    congr 1
    rw [spliced_text_drop n e w tx hA]

lemma renumberPara_of_none (n : Nat) (p : Para)
    (h : pyMatch (paraText p) = none) : renumberPara n p = p := by
  unfold renumberPara
  rw [h]

/-- After one splice, the stripped text still matches and a second splice with
the same counter value changes nothing. -/
lemma renumberPara_pass2 (n : Nat) (p : Para) (e : Nat)
    (hm : pyMatch (paraText p) = some e)
    (hs : (pyMatch (pyStrip (paraText p))).isSome = true) :
    (pyMatch (pyStrip (paraText (renumberPara n p)))).isSome = true ∧
    renumberPara n (renumberPara n p) = renumberPara n p := by
  have htne : paraText p ≠ [] := by
    intro h0
    rw [h0, pyMatch_nil] at hm
    cases hm
  rcases runs_decomp p.runs htne with ⟨pre, r0, rest, hdec, hpre, h0⟩
  obtain ⟨hP, hT⟩ := renumberPara_spec n p e hm pre r0 rest hdec hpre h0
  have hmle : min r0.text.length e ≤ e := Nat.min_le_right _ _
  have hm' : pyMatch (paraText (renumberPara n p)) =
      some ((natToChars n).length + 1 +
        (wsPrefixLen ((paraText p).drop (min r0.text.length e)) + 1)) := by
    rw [hT]
    exact renumberPara_text_match n _
  obtain ⟨cw, hcw, hcwns⟩ := strip_match_drop_nonspace _ e hm hs
  have hsub : (paraText p).drop e =
      ((paraText p).drop (min r0.text.length e)).drop (e - min r0.text.length e) := by
    rw [List.drop_drop]
    congr 1
    omega
  have hcwD : cw ∈ (paraText p).drop (min r0.text.length e) := by
    rw [hsub] at hcw
    exact List.mem_of_mem_drop hcw
  rcases pyMatch_head_nonspace _ _ hm' with ⟨ch, hch1, hch2⟩
  have hb : (pyMatch (pyStrip (paraText (renumberPara n p)))).isSome = true := by
    apply match_strip_of_drop_nonspace _ _ ch hch1 hch2 hm'
    obtain ⟨c', hc'1, hc'2⟩ := nonspace_after_ws _ cw hcwD hcwns
    refine ⟨c', ?_, hc'2⟩
    rw [hT, drop_num_prefix]
    exact hc'1
  refine ⟨hb, ?_⟩
  have hdec' : (renumberPara n p).runs = pre ++ splicedRun n e r0 :: rest := by
    rw [hP]
  have h0' : (splicedRun n e r0).text ≠ [] := by
    simp [splicedRun]
  obtain ⟨hP2, _⟩ := renumberPara_spec n (renumberPara n p) _ hm' pre
    (splicedRun n e r0) rest hdec' hpre h0'
  rw [hP2]
  have hAimpl : e ≤ r0.text.length → wsPrefixLen ((paraText p).drop (min r0.text.length e)) = 0 := by
    intro hle
    rw [Nat.min_eq_right hle]
    exact wsPrefixLen_of_drop_match _ e hm
  rw [splicedRun_idem n e _ r0 hAimpl]
  rw [hP]

/-- One renumbering pass is a fixed point of a second pass, paragraph for
paragraph, at every counter value. -/
lemma renumberGo_idem (l : List Para) : ∀ n,
    renumberGo n (renumberGo n l) = renumberGo n l := by
  induction l with
  | nil => intro n; rfl
  | cons p ps ih =>
    intro n
    by_cases hsm : (pyMatch (pyStrip (paraText p))).isSome = true
    · rw [renumberGo, if_pos hsm]
      rcases hM : pyMatch (paraText p) with _ | e
      · have hid : renumberPara n p = p := renumberPara_of_none n p hM
        rw [hid, renumberGo, if_pos hsm, hid, ih (n + 1)]
      · obtain ⟨hb, hc⟩ := renumberPara_pass2 n p e hM hsm
        rw [renumberGo, if_pos hb, hc, ih (n + 1)]
    · rw [renumberGo, if_neg hsm]
      rw [renumberGo, if_neg hsm, ih n]

/-! ### Claim C3 -/

/-- C3: renumbering is idempotent — applying
`renumber_clauses_preserve_formatting` twice in a row yields the same paragraph
texts as applying it once; the second application changes no paragraph's text
(in fact it changes nothing at all: the counter visits the same paragraphs,
each spliced text still matches with the same number, and re-splicing writes
the identical characters). -/
theorem C3_renumber_idempotent (d : List Para) :
    (renumber_clauses_preserve_formatting
        (renumber_clauses_preserve_formatting d)).map paraText =
      (renumber_clauses_preserve_formatting d).map paraText := by
  unfold renumber_clauses_preserve_formatting
  rw [renumberGo_idem d 1]

/-! ### Claim C2 (amended) -/

/-- C2 (amended): for a paragraph whose concatenated run text matches the
clause-number pattern, the renumberer rewrites only the first non-empty run:
leading empty runs and all later runs are returned unchanged, the first
non-empty run's overlap with the matched span is replaced by the new
number-dot-space prefix, and every formatting attribute of that run — and the
paragraph's own style and alignment — is preserved. Span characters beyond the
first run are NOT removed (see the counterexample): the rewrite stops at the
first run. -/
theorem C2_first_run_amended (n : Nat) (p : Para) (e : Nat)
    (hm : pyMatch (paraText p) = some e)
    (pre : List Run) (r0 : Run) (rest : List Run)
    (hdec : p.runs = pre ++ r0 :: rest)
    (hpre : ∀ r ∈ pre, r.text = [])
    (h0 : r0.text ≠ []) :
    (renumberPara n p).runs = pre ++ splicedRun n e r0 :: rest ∧
    (splicedRun n e r0).text =
      natToChars n ++ '.' :: ' ' :: r0.text.drop (min r0.text.length e) ∧
    (splicedRun n e r0).bold = r0.bold ∧
    (splicedRun n e r0).italic = r0.italic ∧
    (splicedRun n e r0).underline = r0.underline ∧
    (splicedRun n e r0).fontName = r0.fontName ∧
    (splicedRun n e r0).fontSize = r0.fontSize ∧
    (splicedRun n e r0).fontColor = r0.fontColor ∧
    (splicedRun n e r0).allCaps = r0.allCaps ∧
    (renumberPara n p).styleId = p.styleId ∧
    (renumberPara n p).alignment = p.alignment := by
  obtain ⟨hP, _⟩ := renumberPara_spec n p e hm pre r0 rest hdec hpre h0
  refine ⟨?_, rfl, rfl, rfl, rfl, rfl, rfl, rfl, rfl, ?_, ?_⟩
  · rw [hP]
  · rw [hP]
  · rw [hP]

theorem C2_first_run_amended_witness :
    pyMatch (paraText (paraB (("2. Old text").data))) = some 3 ∧
    (renumberPara 7 (paraB (("2. Old text").data))).runs =
      [] ++ splicedRun 7 3
        ({ text := (("2. Old text").data), bold := some true } : Run) :: [] ∧
    (splicedRun 7 3
        ({ text := (("2. Old text").data), bold := some true } : Run)).text =
      (("7. Old text").data) :=
  ⟨by decide,
   (C2_first_run_amended 7 (paraB (("2. Old text").data)) 3 (by decide)
      [] ({ text := (("2. Old text").data), bold := some true } : Run) []
      (by rfl) (by intro r hr; cases hr) (by decide)).1,
   by decide⟩

/-! ### Specification lemmas for the scanning primitives -/

lemma findIdxL_lt_length {α : Type} (f : α → Bool) : ∀ (l : List α) (i : Nat),
    findIdxL f l = some i → i < l.length
  | [], i, h => by simp [findIdxL] at h
  | a :: as, i, h => by
    rw [findIdxL] at h
    by_cases hf : f a = true
    · rw [if_pos hf] at h
      simp only [Option.some.injEq] at h
      subst h
      simp
    · rw [if_neg hf] at h
      rcases Option.map_eq_some'.mp h with ⟨j, hj, hij⟩
      subst hij
      have hrec := findIdxL_lt_length f as j hj
      simp only [List.length_cons]
      omega

lemma findSubstr_dotspace_startsWith : ∀ (t : List Char) (i : Nat),
    findSubstr ['.', ' '] t = some i → startsWithL ['.', ' '] (t.drop i) = true
  | [], i, h => by simp [findSubstr] at h
  | c :: cs, i, h => by
    rw [findSubstr] at h
    by_cases hs : startsWithL ['.', ' '] (c :: cs) = true
    · rw [if_pos hs] at h
      simp only [Option.some.injEq] at h
      subst h
      simpa using hs
    · rw [if_neg hs] at h
      rcases Option.map_eq_some'.mp h with ⟨j, hj, hij⟩
      subst hij
      have hrec := findSubstr_dotspace_startsWith cs j hj
      simpa [List.drop_succ_cons] using hrec

lemma startsWith_dotspace : ∀ (t : List Char),
    startsWithL ['.', ' '] t = true → t = '.' :: ' ' :: t.drop 2
  | [], h => by simp [startsWithL] at h
  | [a], h => by simp [startsWithL] at h
  | a :: a2 :: t2, h => by
    simp only [startsWithL, Bool.and_eq_true, beq_iff_eq] at h
    obtain ⟨h1, h2, _⟩ := h
    subst h1
    subst h2
    rfl

lemma rfindChar_getElem : ∀ (c : Char) (t : List Char) (l : Nat),
    rfindChar c t = some l → t[l]? = some c
  | c, [], l, h => by simp [rfindChar] at h
  | c, x :: xs, l, h => by
    rcases hr : rfindChar c xs with _ | i
    · simp only [rfindChar, hr] at h
      by_cases hx : (x == c) = true
      · rw [if_pos hx] at h
        simp only [Option.some.injEq] at h
        subst h
        simp only [List.getElem?_cons_zero, Option.some.injEq]
        exact (beq_iff_eq.mp hx)
      · rw [if_neg hx] at h
        simp at h
    · simp only [rfindChar, hr, Option.some.injEq] at h
      subst h
      simp only [List.getElem?_cons_succ]
      exact rfindChar_getElem c xs i hr

lemma head?_take_pos {α : Type} (l : List α) (n : Nat) (hn : 0 < n) :
    (l.take n).head? = l.head? := by
  cases l with
  | nil => simp
  | cons a as =>
    cases n with
    | zero => omega
    | succ m => simp [List.take_succ_cons]

lemma mem_take_of_getElem {α : Type} : ∀ (l : List α) (n i : Nat) (x : α),
    i < n → l[i]? = some x → x ∈ l.take n
  | [], _, i, x, _, h => by simp at h
  | _ :: _, 0, i, _, hi, _ => by omega
  | a :: as, n + 1, 0, x, _, h => by
    simp only [List.getElem?_cons_zero, Option.some.injEq] at h
    subst h
    simp [List.take_succ_cons]
  | a :: as, n + 1, i + 1, x, hi, h => by
    simp only [List.getElem?_cons_succ] at h
    have hrec := mem_take_of_getElem as n i x (by omega) h
    simp only [List.take_succ_cons, List.mem_cons]
    exact Or.inr hrec

lemma pyLStrip_head_nonspace : ∀ (t : List Char) (c : Char),
    (pyLStrip t).head? = some c → isPySpace c = false
  | [], c, h => by simp [pyLStrip] at h
  | x :: xs, c, h => by
    rw [pyLStrip, List.dropWhile_cons] at h
    by_cases hx : isPySpace x = true
    · rw [if_pos hx] at h
      exact pyLStrip_head_nonspace xs c h
    · rw [if_neg hx] at h
      simp only [List.head?_cons, Option.some.injEq] at h
      subst h
      simpa using hx

lemma pyStrip_head_nonspace (t : List Char) (c : Char)
    (h : (pyStrip t).head? = some c) : isPySpace c = false := by
  unfold pyStrip at h
  rcases pyRStrip_decomp (pyLStrip t) with ⟨v, hv, _⟩
  apply pyLStrip_head_nonspace t c
  cases hP : pyRStrip (pyLStrip t) with
  | nil => rw [hP] at h; simp at h
  | cons y ys =>
    rw [hP] at h
    simp only [List.head?_cons, Option.some.injEq] at h
    subst h
    rw [hv, hP]
    rfl

/-! ### Shape of the number/heading/period splits -/

lemma after_split_eq (h : List Char) :
    after_clause_split (['X', 'X', 'X', '.', ' '] ++ h ++ ['.']) =
      (['X', 'X', 'X', '.', ' '], h, ['.', ' ']) := by
  have hfind : findSubstr ['.', ' '] (['X', 'X', 'X', '.', ' '] ++ h ++ ['.']) =
      some 3 := by
    simp [findSubstr, startsWithL]
  have hlen : (['X', 'X', 'X', '.', ' '] ++ h).length = 5 + h.length := by
    simp only [List.length_append, List.length_cons, List.length_nil]
  have hrfind : rfindChar '.' (['X', 'X', 'X', '.', ' '] ++ h ++ ['.']) =
      some (5 + h.length) := by
    rw [rfindChar_concat_self, hlen]
  unfold after_clause_split
  rw [hfind, hrfind]
  have h35 : 3 < 5 + h.length := by omega
  simp only [h35, if_true, Prod.mk.injEq]
  refine ⟨rfl, ?_, ?_⟩
  · have hd : (['X', 'X', 'X', '.', ' '] ++ h ++ ['.']).drop (3 + 2) = h ++ ['.'] := rfl
    rw [hd]
    have h5 : 5 + h.length - (3 + 2) = h.length := by omega
    rw [h5]
    exact List.take_left h ['.']
  · have hg : (['X', 'X', 'X', '.', ' '] ++ h ++ ['.']).getD (5 + h.length) '.' = '.' := by
      rw [← hlen]
      exact getD_concat_length _ _ _
    rw [hg]

lemma take_split_at_dotspace (bt : List Char) (f : Nat)
    (hf : findSubstr ['.', ' '] bt = some f) :
    bt.take (f + 2) = bt.take f ++ ['.', ' '] ∧ f + 2 ≤ bt.length := by
  have hs := findSubstr_dotspace_startsWith bt f hf
  have hdrop := startsWith_dotspace _ hs
  have hlen : f + 2 ≤ bt.length := by
    have hld : (bt.drop f).length = bt.length - f := List.length_drop f bt
    rw [hdrop] at hld
    simp only [List.length_cons] at hld
    omega
  refine ⟨?_, hlen⟩
  conv_lhs => rw [← List.take_append_drop f bt, hdrop]
  rw [List.take_append_eq_append_take]
  have hlt : (bt.take f).length = f := List.length_take_of_le (by omega)
  rw [List.take_of_length_le (by rw [hlt]; omega)]
  rw [hlt]
  have h2 : f + 2 - f = 2 := by omega
  rw [h2]
  rfl

lemma before_number_period_shape (bt : List Char)
    (hbt : ∀ c, bt.head? = some c → isPySpace c = false) :
    ∃ S₀, before_clause_number_period bt = (S₀ ++ ['.', ' '], ['.', ' ']) ∧
      (∀ c, S₀.head? = some c → isPySpace c = false) := by
  have hX : ∀ c : Char, (['X', 'X', 'X'] : List Char).head? = some c →
      isPySpace c = false := by
    intro c hc
    simp only [List.head?_cons, Option.some.injEq] at hc
    subst hc
    decide
  unfold before_clause_number_period
  split
  · rename_i f l h1 h2
    by_cases hlt : f < l
    · rw [if_pos hlt]
      obtain ⟨htake, hle⟩ := take_split_at_dotspace bt f h1
      have hg : bt.getD l '.' = '.' := by
        rw [List.getD_eq_getElem?_getD, rfindChar_getElem '.' bt l h2]
        rfl
      refine ⟨bt.take f, ?_, ?_⟩
      · rw [htake, hg]
      · intro c hc
        rcases Nat.eq_zero_or_pos f with hf0 | hfpos
        · rw [hf0] at hc
          simp at hc
        · rw [head?_take_pos bt f hfpos] at hc
          exact hbt c hc
    · rw [if_neg hlt]
      exact ⟨['X', 'X', 'X'], rfl, hX⟩
  · exact ⟨['X', 'X', 'X'], rfl, hX⟩

/-! ### The clause-number pattern under trailing whitespace -/

lemma pyMatch_append_ws (A W : List Char) (e : Nat)
    (hW : ∀ c ∈ W, isPySpace c = true)
    (hm : pyMatch A = some e) : (pyMatch (A ++ W)).isSome = true := by
  rcases pyMatch_some_inv A e hm with ⟨k, hat, hcase⟩
  rcases (pyMatchAt_some_iff A k e).mp hat with ⟨hdot, hwpos, _⟩
  have hkA : k < A.length := by
    by_contra hk
    push_neg at hk
    rw [List.drop_eq_nil_of_le hk] at hdot
    simp at hdot
  have hdot' : ((A ++ W).drop k).head? = some '.' := by
    rw [List.head?_drop] at hdot ⊢
    rw [List.getElem?_append_left hkA]
    exact hdot
  have hsplit : (A ++ W).drop (k + 1) = A.drop (k + 1) ++ W := by
    rw [List.drop_append_eq_append_drop, Nat.sub_eq_zero_of_le (by omega),
      List.drop_zero]
  have hw' : 0 < wsPrefixLen ((A ++ W).drop (k + 1)) := by
    rw [hsplit]
    calc 0 < wsPrefixLen (A.drop (k + 1)) := hwpos
      _ ≤ _ := wsPrefixLen_le_append _ W
  have hAtEq : pyMatchAt (A ++ W) k =
      some (k + 1 + wsPrefixLen ((A ++ W).drop (k + 1))) :=
    (pyMatchAt_some_iff _ k _).mpr ⟨hdot', hw', rfl⟩
  rcases hcase with ⟨hpos, hkd⟩ | ⟨h0, h3, hk3⟩
  · have hdpl : digitPrefixLen (A ++ W) = digitPrefixLen A :=
      digitPrefixLen_append_of_lt A W (by omega)
    rw [pyMatch_eq_At_digits (A ++ W) (by rw [hdpl]; omega), hdpl, ← hkd, hAtEq]
    rfl
  · have hAne : A ≠ [] := by
      intro hA
      rw [hA] at h3
      simp at h3
    have hx : A.head? = some 'X' := take3_XXX_head A h3
    have h0' : digitPrefixLen (A ++ W) = 0 := by
      apply digitPrefixLen_eq_zero_of_head _ 'X'
      · cases A with
        | nil => simp at hx
        | cons a as => simpa using hx
      · decide
    have h3' : (A ++ W).take 3 = ['X', 'X', 'X'] := by
      rw [List.take_append_eq_append_take, Nat.sub_eq_zero_of_le (by omega),
        List.take_zero, List.append_nil]
      exact h3
    rw [pyMatch_eq_At_XXX (A ++ W) h0' h3', ← hk3, hAtEq]
    rfl

lemma match_of_strip_match (t : List Char) (c0 : Char)
    (hhead : t.head? = some c0) (hns : isPySpace c0 = false)
    (hs : (pyMatch (pyStrip t)).isSome = true) : (pyMatch t).isSome = true := by
  rw [pyStrip_eq_rstrip t c0 hhead hns] at hs
  rcases Option.isSome_iff_exists.mp hs with ⟨e, he⟩
  rcases pyRStrip_decomp t with ⟨v, hv, hvws⟩
  have := pyMatch_append_ws (pyRStrip t) v e hvws he
  rwa [← hv] at this

/-! ### The inserted clause paragraph agrees on match versus strip-match -/

lemma np_dot_getElem (S₀ h b : List Char) :
    (S₀ ++ '.' :: ' ' :: (h ++ '.' :: ' ' :: b))[S₀.length + 2 + h.length]? =
      some '.' := by
  have hT : S₀ ++ '.' :: ' ' :: (h ++ '.' :: ' ' :: b) =
      (S₀ ++ '.' :: ' ' :: h) ++ '.' :: ' ' :: b := by
    simp
  have hlen : (S₀ ++ '.' :: ' ' :: h).length = S₀.length + 2 + h.length := by
    simp only [List.length_append, List.length_cons]
    omega
  rw [hT, ← hlen, List.getElem?_append_right (le_refl _), Nat.sub_self]
  rfl

lemma np_span_le (S₀ h b : List Char) (e : Nat)
    (hm : pyMatch (S₀ ++ '.' :: ' ' :: (h ++ '.' :: ' ' :: b)) = some e) :
    e ≤ S₀.length + 2 + h.length := by
  have hp0 := np_dot_getElem S₀ h b
  have hsp : (S₀ ++ '.' :: ' ' :: (h ++ '.' :: ' ' :: b))[S₀.length + 1]? =
      some ' ' := by
    have hT : S₀ ++ '.' :: ' ' :: (h ++ '.' :: ' ' :: b) =
        (S₀ ++ ['.']) ++ ' ' :: (h ++ '.' :: ' ' :: b) := by simp
    have hlen : (S₀ ++ ['.']).length = S₀.length + 1 := by simp
    rw [hT, ← hlen, List.getElem?_append_right (le_refl _), Nat.sub_self]
    simp
  rcases pyMatch_some_inv _ e hm with ⟨k, hat, hcase⟩
  rcases (pyMatchAt_some_iff _ k e).mp hat with ⟨hdot, hwpos, he⟩
  have hk : k ≤ S₀.length + 1 := by
    rcases hcase with ⟨hpos, hkd⟩ | ⟨h0, h3, hk3⟩
    · by_contra hgt
      push_neg at hgt
      have hmem : (' ' : Char) ∈
          (S₀ ++ '.' :: ' ' :: (h ++ '.' :: ' ' :: b)).take
            (digitPrefixLen (S₀ ++ '.' :: ' ' :: (h ++ '.' :: ' ' :: b))) :=
        mem_take_of_getElem _ _ _ _ (by omega) hsp
      have hdg := digitPrefixLen_take_digits _ ' ' hmem
      exact absurd hdg (by decide)
    · subst hk3
      by_contra hgt
      push_neg at hgt
      have hdotmem : ('.' : Char) ∈
          (S₀ ++ '.' :: ' ' :: (h ++ '.' :: ' ' :: b)).take 3 := by
        apply mem_take_of_getElem _ _ S₀.length _ (by omega)
        rw [List.getElem?_append_right (le_refl _), Nat.sub_self]
        rfl
      rw [h3] at hdotmem
      exact absurd hdotmem (by decide)
  by_contra hgt
  push_neg at hgt
  have hidx : ((S₀ ++ '.' :: ' ' :: (h ++ '.' :: ' ' :: b)).drop
      (k + 1))[S₀.length + 2 + h.length - (k + 1)]? = some '.' := by
    rw [List.getElem?_drop]
    have harith : k + 1 + (S₀.length + 2 + h.length - (k + 1)) =
        S₀.length + 2 + h.length := by omega
    rw [harith]
    exact hp0
  have hmem : ('.' : Char) ∈
      ((S₀ ++ '.' :: ' ' :: (h ++ '.' :: ' ' :: b)).drop (k + 1)).take
        (wsPrefixLen ((S₀ ++ '.' :: ' ' :: (h ++ '.' :: ' ' :: b)).drop (k + 1))) :=
    mem_take_of_getElem _ _ _ _ (by omega) hidx
  have hws := wsPrefixLen_take_ws _ '.' hmem
  exact absurd hws (by decide)

lemma np_match_strip_iff (S₀ h b : List Char) (c0 : Char)
    (hhead : (S₀ ++ '.' :: ' ' :: (h ++ '.' :: ' ' :: b)).head? = some c0)
    (hns : isPySpace c0 = false) :
    ((pyMatch (S₀ ++ '.' :: ' ' :: (h ++ '.' :: ' ' :: b))).isSome = true ↔
      (pyMatch (pyStrip (S₀ ++ '.' :: ' ' :: (h ++ '.' :: ' ' :: b)))).isSome =
        true) := by
  constructor
  · intro hm
    rcases Option.isSome_iff_exists.mp hm with ⟨e, he⟩
    apply match_strip_of_drop_nonspace _ e c0 hhead hns he
    have hle := np_span_le S₀ h b e he
    refine ⟨'.', ?_, by decide⟩
    apply List.getElem?_mem
    show ((S₀ ++ '.' :: ' ' :: (h ++ '.' :: ' ' :: b)).drop
        e)[S₀.length + 2 + h.length - e]? = some '.'
    rw [List.getElem?_drop]
    have harith : e + (S₀.length + 2 + h.length - e) =
        S₀.length + 2 + h.length := by omega
    rw [harith]
    exact np_dot_getElem S₀ h b
  · exact match_of_strip_match _ c0 hhead hns

/-! ### Texts of the constructed clause paragraphs -/

lemma copyFontFields_text (src : Option Run) (r : Run) :
    (copyFontFields src r).text = r.text := by
  unfold copyFontFields
  rcases src with _ | s
  · rfl
  · rcases hn : s.fontName with _ | nm <;> rcases hs : s.fontSize with _ | sz <;>
      rcases hc : s.fontColor with _ | cl <;>
      simp only [hn, hs, hc] <;>
      first
        | rfl
        | (split_ifs <;> rfl)

lemma copy_font_text (t : List Char) (src : Option Run) (b i u : Bool) :
    (copy_font t src b i u).text = t := by
  unfold copy_font
  exact copyFontFields_text src { text := t }

lemma clause_body_run_text (src : Option Run) (body : List Char) :
    (clause_body_run src body).text = body := by
  unfold clause_body_run
  exact copyFontFields_text src { text := body }

lemma copy_para_format_runs (src p : Para) : (copy_para_format src p).runs = p.runs := by
  unfold copy_para_format
  rcases hl : src.leftIndent with _ | v₁ <;> rcases hr : src.rightIndent with _ | v₂ <;>
    rcases hf : src.firstLineIndent with _ | v₃ <;> simp [hl, hr, hf]

lemma paraText_copy_para_format (src p : Para) :
    paraText (copy_para_format src p) = paraText p := by
  unfold paraText
  rw [copy_para_format_runs]

lemma paraText_after_np (d : List Para) (i : Nat) (h b : List Char) :
    paraText (after_clause_new_para d i h b) =
      ['X', 'X', 'X'] ++ '.' :: ' ' :: (h ++ '.' :: ' ' :: b) := by
  simp only [after_clause_new_para]
  rw [after_split_eq, paraText_copy_para_format]
  unfold paraText add_heading_runs
  simp [copy_font_text, clause_body_run_text, blankPara, newParagraph]

lemma paraText_before_np (d : List Para) (i : Nat) (h b : List Char) :
    ∃ S₀, paraText (before_clause_new_para d i h b) =
        S₀ ++ '.' :: ' ' :: (h ++ '.' :: ' ' :: b) ∧
      (∀ c, S₀.head? = some c → isPySpace c = false) := by
  obtain ⟨S₀, hsplit, hhd⟩ := before_number_period_shape
    (pyStrip (paraText (d.getD i blankPara)))
    (fun c hc => pyStrip_head_nonspace _ c hc)
  refine ⟨S₀, ?_, hhd⟩
  simp only [before_clause_new_para]
  rw [hsplit, paraText_copy_para_format]
  unfold paraText add_heading_runs
  simp [copy_font_text, clause_body_run_text, blankPara, newParagraph]

/-! ### The heading-number sequence produced by renumbering -/

lemma headingNums_cons_of_match (p : Para) (l : List Para)
    (h : (pyMatch (paraText p)).isSome = true) :
    headingNums (p :: l) = leadingNumOf (paraText p) :: headingNums l := by
  unfold headingNums
  rw [List.filterMap_cons]
  simp only [h, if_true]

lemma headingNums_cons_of_not_match (p : Para) (l : List Para)
    (h : ¬ (pyMatch (paraText p)).isSome = true) :
    headingNums (p :: l) = headingNums l := by
  unfold headingNums
  rw [List.filterMap_cons]
  simp only [Bool.not_eq_true] at h
  simp [h]

lemma headingNums_renumberGo : ∀ (l : List Para) (n : Nat),
    (∀ p ∈ l, ((pyMatch (paraText p)).isSome = true ↔
      (pyMatch (pyStrip (paraText p))).isSome = true)) →
    headingNums (renumberGo n l) =
      (List.range' n
        (l.countP (fun p => (pyMatch (pyStrip (paraText p))).isSome))).map some
  | [], n, _ => rfl
  | p :: ps, n, H => by
    have Hp := H p (by simp)
    have Hps : ∀ q ∈ ps, ((pyMatch (paraText q)).isSome = true ↔
        (pyMatch (pyStrip (paraText q))).isSome = true) :=
      fun q hq => H q (by simp [hq])
    by_cases hs : (pyMatch (pyStrip (paraText p))).isSome = true
    · rw [renumberGo, if_pos hs]
      have hm : (pyMatch (paraText p)).isSome = true := Hp.mpr hs
      rcases Option.isSome_iff_exists.mp hm with ⟨e, he⟩
      have htne : paraText p ≠ [] := by
        intro h0
        rw [h0, pyMatch_nil] at he
        cases he
      rcases runs_decomp p.runs htne with ⟨pre, r0, rest, hdec, hpre, h0⟩
      obtain ⟨_, hT⟩ := renumberPara_spec n p e he pre r0 rest hdec hpre h0
      have hm' : (pyMatch (paraText (renumberPara n p))).isSome = true := by
        rw [hT, renumberPara_text_match]
        rfl
      rw [headingNums_cons_of_match _ _ hm']
      have hnum : leadingNumOf (paraText (renumberPara n p)) = some n := by
        rw [hT]
        exact leadingNumOf_natToChars n _
      rw [hnum]
      have hcnt : (p :: ps).countP
            (fun p => (pyMatch (pyStrip (paraText p))).isSome) =
          ps.countP (fun p => (pyMatch (pyStrip (paraText p))).isSome) + 1 := by
        rw [List.countP_cons]
        simp [hs]
      rw [hcnt, List.range'_succ, List.map_cons]
      rw [headingNums_renumberGo ps (n + 1) Hps]
    · rw [renumberGo, if_neg hs]
      have hm : ¬ (pyMatch (paraText p)).isSome = true := fun h => hs (Hp.mp h)
      rw [headingNums_cons_of_not_match _ _ hm]
      have hcnt : (p :: ps).countP
            (fun p => (pyMatch (pyStrip (paraText p))).isSome) =
          ps.countP (fun p => (pyMatch (pyStrip (paraText p))).isSome) := by
        rw [List.countP_cons]
        simp only [Bool.not_eq_true] at hs
        simp [hs]
      rw [hcnt, headingNums_renumberGo ps n Hps]

/-! ### Positional behaviour of the renumbering pass -/

lemma renumberGo_length : ∀ (l : List Para) (n : Nat),
    (renumberGo n l).length = l.length
  | [], _ => rfl
  | p :: ps, n => by
    rw [renumberGo]
    by_cases hs : (pyMatch (pyStrip (paraText p))).isSome = true
    · rw [if_pos hs]
      simp [renumberGo_length ps (n + 1)]
    · rw [if_neg hs]
      simp [renumberGo_length ps n]

lemma renumberGo_getElem_nomatch : ∀ (l : List Para) (n j : Nat) (p : Para),
    l[j]? = some p → (pyMatch (pyStrip (paraText p))).isSome = false →
    (renumberGo n l)[j]? = some p
  | [], _, j, p, h, _ => by simp at h
  | q :: qs, n, 0, p, h, hns => by
    simp only [List.getElem?_cons_zero, Option.some.injEq] at h
    subst h
    rw [renumberGo, if_neg (by rw [hns]; exact Bool.false_ne_true)]
    simp
  | q :: qs, n, j + 1, p, h, hns => by
    simp only [List.getElem?_cons_succ] at h
    rw [renumberGo]
    by_cases hq : (pyMatch (pyStrip (paraText q))).isSome = true
    · rw [if_pos hq]
      simpa using renumberGo_getElem_nomatch qs (n + 1) j p h hns
    · rw [if_neg hq]
      simpa using renumberGo_getElem_nomatch qs n j p h hns

lemma renumberGo_getElem_shape : ∀ (l : List Para) (n j : Nat) (p : Para),
    l[j]? = some p →
    ∃ q, (renumberGo n l)[j]? = some q ∧ (q = p ∨ ∃ m, q = renumberPara m p)
  | [], _, j, p, h => by simp at h
  | q0 :: qs, n, 0, p, h => by
    simp only [List.getElem?_cons_zero, Option.some.injEq] at h
    subst h
    rw [renumberGo]
    by_cases hq : (pyMatch (pyStrip (paraText q0))).isSome = true
    · rw [if_pos hq]
      exact ⟨renumberPara n q0, by simp, Or.inr ⟨n, rfl⟩⟩
    · rw [if_neg hq]
      exact ⟨q0, by simp, Or.inl rfl⟩
  | q0 :: qs, n, j + 1, p, h => by
    simp only [List.getElem?_cons_succ] at h
    rw [renumberGo]
    by_cases hq : (pyMatch (pyStrip (paraText q0))).isSome = true
    · rw [if_pos hq]
      obtain ⟨q, hq1, hq2⟩ := renumberGo_getElem_shape qs (n + 1) j p h
      exact ⟨q, by simpa using hq1, hq2⟩
    · rw [if_neg hq]
      obtain ⟨q, hq1, hq2⟩ := renumberGo_getElem_shape qs n j p h
      exact ⟨q, by simpa using hq1, hq2⟩

lemma renumberPara_text_ne_nil (m : Nat) (p : Para) (h : paraText p ≠ []) :
    paraText (renumberPara m p) ≠ [] := by
  rcases hm : pyMatch (paraText p) with _ | e
  · rw [renumberPara_of_none m p hm]
    exact h
  · rcases runs_decomp p.runs h with ⟨pre, r0, rest, hdec, hpre, h0⟩
    obtain ⟨_, hT⟩ := renumberPara_spec m p e hm pre r0 rest hdec hpre h0
    rw [hT]
    simp

/-! ### Claim C1 (amended) -/

/-- C1 (amended): after every successful `insert_styled_clause_after_clause` or
`insert_styled_clause_before_clause` on a document in which every paragraph's
run-concatenated text matches the clause-number pattern exactly when its
stripped text does, the leading numbers of the top-level numbered clause
headings form, in document order, exactly the gapless sequence 1, 2, 3, ….
(The agreement hypothesis is necessary: see the counterexample, where a bare
`"5. "` paragraph survives renumbering untouched.) -/
theorem C1_sequence_amended (d : List Para) (a h b : List Char) (d' : List Para)
    (hma : MatchStripAgree d)
    (hop : insert_styled_clause_after_clause d a h b = Except.ok d' ∨
           insert_styled_clause_before_clause d a h b = Except.ok d') :
    headingNums d' = (List.range' 1 (headingNums d').length).map some := by
  have hblank : ((pyMatch (paraText blankPara)).isSome = true ↔
      (pyMatch (pyStrip (paraText blankPara))).isSome = true) := by decide
  rcases hop with hop | hop
  · rcases hidx : clause_anchor_index d a with _ | i
    · simp only [insert_styled_clause_after_clause, hidx] at hop
      exact Except.noConfusion hop
    · simp only [insert_styled_clause_after_clause, hidx, Except.ok.injEq] at hop
      subst hop
      have HL : ∀ p ∈ (d.take (i + 1) ++ blankPara ::
          after_clause_new_para d i h b :: d.drop (i + 1)),
          ((pyMatch (paraText p)).isSome = true ↔
            (pyMatch (pyStrip (paraText p))).isSome = true) := by
        intro p hp
        rcases List.mem_append.mp hp with hp | hp
        · exact hma p (List.mem_of_mem_take hp)
        · rcases List.mem_cons.mp hp with rfl | hp
          · exact hblank
          · rcases List.mem_cons.mp hp with rfl | hp
            · rw [paraText_after_np]
              exact np_match_strip_iff ['X', 'X', 'X'] h b 'X' rfl (by decide)
            · exact hma p (List.mem_of_mem_drop hp)
      unfold renumber_clauses_preserve_formatting
      rw [headingNums_renumberGo _ 1 HL]
      simp [List.length_map, List.length_range']
  · rcases hidx : clause_anchor_index d a with _ | i
    · simp only [insert_styled_clause_before_clause, hidx] at hop
      exact Except.noConfusion hop
    · simp only [insert_styled_clause_before_clause, hidx, Except.ok.injEq] at hop
      subst hop
      have HL : ∀ p ∈ (d.take i ++ blankPara ::
          before_clause_new_para d i h b :: d.drop i),
          ((pyMatch (paraText p)).isSome = true ↔
            (pyMatch (pyStrip (paraText p))).isSome = true) := by
        intro p hp
        rcases List.mem_append.mp hp with hp | hp
        · exact hma p (List.mem_of_mem_take hp)
        · rcases List.mem_cons.mp hp with rfl | hp
          · exact hblank
          · rcases List.mem_cons.mp hp with rfl | hp
            · obtain ⟨S₀, hText, hhd⟩ := paraText_before_np d i h b
              rw [hText]
              have hhead : ∃ c0, (S₀ ++ '.' :: ' ' ::
                  (h ++ '.' :: ' ' :: b)).head? = some c0 ∧
                  isPySpace c0 = false := by
                cases S₀ with
                | nil => exact ⟨'.', rfl, by decide⟩
                | cons c S' => exact ⟨c, rfl, hhd c rfl⟩
              obtain ⟨c0, hc1, hc2⟩ := hhead
              exact np_match_strip_iff S₀ h b c0 hc1 hc2
            · exact hma p (List.mem_of_mem_drop hp)
      unfold renumber_clauses_preserve_formatting
      rw [headingNums_renumberGo _ 1 HL]
      simp [List.length_map, List.length_range']

theorem C1_sequence_amended_witness :
    MatchStripAgree exDocBeta ∧
    headingNums exResBeta =
      (List.range' 1 (headingNums exResBeta).length).map some :=
  ⟨by decide,
   C1_sequence_amended exDocBeta (("Beta.").data) (("New").data) (("body").data)
     exResBeta (by decide) (Or.inl (by rfl))⟩

/-! ### Claim C9 (amended) -/

/-- C9 (amended): every successful clause insert adds exactly two paragraphs:
one clause paragraph and one empty separator.  In the after-variant the
separator sits immediately after the anchor (position `i + 1`) and the new
clause after it (position `i + 2`); in the before-variant the separator is
inserted two positions before the anchor (position `i`), with the new,
non-empty clause paragraph between separator and anchor (position `i + 1`) —
the separator is NOT adjacent to the anchor there. -/
theorem C9_two_paragraphs_amended (d : List Para) (a h b : List Char) (i : Nat)
    (hidx : clause_anchor_index d a = some i) :
    (∀ d', insert_styled_clause_after_clause d a h b = Except.ok d' →
      d'.length = d.length + 2 ∧ (d'[i + 1]?).map paraText = some [] ∧
      ∃ q, d'[i + 2]? = some q ∧ paraText q ≠ []) ∧
    (∀ d', insert_styled_clause_before_clause d a h b = Except.ok d' →
      d'.length = d.length + 2 ∧ (d'[i]?).map paraText = some [] ∧
      ∃ q, d'[i + 1]? = some q ∧ paraText q ≠ []) := by
  have hi : i < d.length := findIdxL_lt_length _ d i hidx
  constructor
  · intro d' hop
    simp only [insert_styled_clause_after_clause, hidx, Except.ok.injEq] at hop
    subst hop
    simp only [renumber_clauses_preserve_formatting]
    have hlen1 : (d.take (i + 1)).length = i + 1 :=
      List.length_take_of_le (by omega)
    refine ⟨?_, ?_, ?_⟩
    · rw [renumberGo_length]
      simp only [List.length_append, List.length_cons, hlen1, List.length_drop]
      omega
    · have hL : (d.take (i + 1) ++ blankPara ::
          after_clause_new_para d i h b :: d.drop (i + 1))[i + 1]? =
          some blankPara := by
        rw [List.getElem?_append_right (by omega), hlen1, Nat.sub_self]
        simp
      rw [renumberGo_getElem_nomatch _ 1 (i + 1) blankPara hL (by decide)]
      rfl
    · have hL : (d.take (i + 1) ++ blankPara ::
          after_clause_new_para d i h b :: d.drop (i + 1))[i + 2]? =
          some (after_clause_new_para d i h b) := by
        rw [List.getElem?_append_right (by omega), hlen1]
        have h1 : i + 2 - (i + 1) = 1 := by omega
        rw [h1]
        simp
      obtain ⟨q, hq1, hq2⟩ := renumberGo_getElem_shape _ 1 (i + 2) _ hL
      refine ⟨q, hq1, ?_⟩
      have hnp : paraText (after_clause_new_para d i h b) ≠ [] := by
        rw [paraText_after_np]
        simp
      rcases hq2 with rfl | ⟨m, rfl⟩
      · exact hnp
      · exact renumberPara_text_ne_nil m _ hnp
  · intro d' hop
    simp only [insert_styled_clause_before_clause, hidx, Except.ok.injEq] at hop
    subst hop
    simp only [renumber_clauses_preserve_formatting]
    have hlen1 : (d.take i).length = i := List.length_take_of_le (by omega)
    refine ⟨?_, ?_, ?_⟩
    · rw [renumberGo_length]
      simp only [List.length_append, List.length_cons, hlen1, List.length_drop]
      omega
    · have hL : (d.take i ++ blankPara ::
          before_clause_new_para d i h b :: d.drop i)[i]? = some blankPara := by
        rw [List.getElem?_append_right (by omega), hlen1, Nat.sub_self]
        simp
      rw [renumberGo_getElem_nomatch _ 1 i blankPara hL (by decide)]
      rfl
    · have hL : (d.take i ++ blankPara ::
          before_clause_new_para d i h b :: d.drop i)[i + 1]? =
          some (before_clause_new_para d i h b) := by
        rw [List.getElem?_append_right (by omega), hlen1]
        have h1 : i + 1 - i = 1 := by omega
        rw [h1]
        simp
      obtain ⟨q, hq1, hq2⟩ := renumberGo_getElem_shape _ 1 (i + 1) _ hL
      refine ⟨q, hq1, ?_⟩
      have hnp : paraText (before_clause_new_para d i h b) ≠ [] := by
        obtain ⟨S₀, hText, _⟩ := paraText_before_np d i h b
        rw [hText]
        simp
      rcases hq2 with rfl | ⟨m, rfl⟩
      · exact hnp
      · exact renumberPara_text_ne_nil m _ hnp

theorem C9_two_paragraphs_amended_witness :
    clause_anchor_index exDocBeta (("Beta.").data) = some 0 ∧
    (exResBeta.length = exDocBeta.length + 2 ∧
      (exResBeta[0 + 1]?).map paraText = some [] ∧
      ∃ q, exResBeta[0 + 2]? = some q ∧ paraText q ≠ []) ∧
    (exResBetaBefore.length = exDocBeta.length + 2 ∧
      (exResBetaBefore[0]?).map paraText = some [] ∧
      ∃ q, exResBetaBefore[0 + 1]? = some q ∧ paraText q ≠ []) :=
  ⟨by decide,
   (C9_two_paragraphs_amended exDocBeta (("Beta.").data) (("New").data)
      (("body").data) 0 (by decide)).1 exResBeta (by rfl),
   (C9_two_paragraphs_amended exDocBeta (("Beta.").data) (("New").data)
      (("body").data) 0 (by decide)).2 exResBetaBefore (by rfl)⟩

/-! ### Claim C7 (amended) -/

/-- C7 (amended): `insert_sentence_in_clause` targets the first paragraph whose
stripped text starts (case-insensitively) with the prefix, splits its stripped
text into sentences, and *appends* the new sentence only when `index = -1` or
`index ≥ len(sentences)`; every other negative index is passed to Python's
`list.insert`, which inserts at position `len + index` (clamped at 0) — it is
not treated as out of range.  The paragraph is rewritten as its original runs
with emptied text plus one new run holding the sentences rejoined by single
spaces, with `all_caps` set on that run iff every non-blank original run was
all-caps; all other paragraphs are untouched. -/
theorem C7_insert_sentence_amended (d : List Para)
    (starts_with sentence : List Char) (index : Int) (j : Nat)
    (hj : sentence_target_idx d starts_with = some j) (d' : List Para)
    (hop : insert_sentence_in_clause d starts_with sentence index =
      Except.ok d') :
    d' = d.set j
      { d.getD j blankPara with
        runs := (d.getD j blankPara).runs.map
            (fun r => { r with text := ([] : List Char) }) ++
          [{ text := List.intercalate [' ']
               (if index = -1 ||
                   ((buildSentences (pyStrip
                     (paraText (d.getD j blankPara)))).length : Int) ≤ index
                then buildSentences (pyStrip (paraText (d.getD j blankPara))) ++
                  [pyStrip sentence]
                else pyListInsert
                  (buildSentences (pyStrip (paraText (d.getD j blankPara))))
                  index (pyStrip sentence)),
             allCaps := if wasAllCaps (d.getD j blankPara) then some true
               else none }] } ∧
    d'.length = d.length ∧
    ∀ k, k ≠ j → d'[k]? = d[k]? := by
  simp only [insert_sentence_in_clause, hj, Except.ok.injEq] at hop
  subst hop
  refine ⟨rfl, by simp, ?_⟩
  intro k hk
  exact List.getElem?_set_ne (Ne.symm hk)

theorem C7_insert_sentence_amended_witness :
    sentence_target_idx exDocSent (("aa").data) = some 0 ∧
    insert_sentence_in_clause exDocSent (("aa").data) (("Xx.").data) 1 =
      Except.ok exResSentIns ∧
    exResSentIns.length = exDocSent.length :=
  ⟨by decide, by rfl,
   (C7_insert_sentence_amended exDocSent (("aa").data) (("Xx.").data) 1 0
      (by decide) exResSentIns (by rfl)).2.1⟩
